import Mathlib

/-!
Verification of the LUT1D subsystem (Lut1DOpData) of a color-management
engine, against its natural-language specification.

The source file embedded here is `Lut1DOpData.cpp`.  Stored table entries
are single-precision floats; the code under study only reads, writes,
compares (`<`, `>`, `==`) and hashes them, so they are embedded as exact
values: an inductive type `F` of finite rationals, the two infinities and
NaN, with IEEE comparison semantics (every comparison involving NaN is
false).  Arrays are embedded as functions `Nat → F` (the buffer always
holds `length * 3` entries, since `getMaxColorComponents()` is 3 for
`Lut3by1DArray`).
-/

namespace OCIO

/-- A stored single-precision value: finite (exact rational), ±∞ or NaN. -/
inductive F where
  | fin : ℚ → F
  | pinf : F
  | ninf : F
  | nan : F
deriving DecidableEq

namespace F

/-- IEEE `isnan` test. -/
def isNan : F → Bool
  | nan => true
  | _ => false

/-- IEEE `<` on stored values: any comparison with NaN is false. -/
def flt : F → F → Bool
  | nan, _ => false
  | _, nan => false
  | fin a, fin b => decide (a < b)
  | fin _, pinf => true
  | fin _, ninf => false
  | pinf, _ => false
  | ninf, ninf => false
  | ninf, _ => true

/-- IEEE `>` on stored values (`a > b` ⟺ `b < a`). -/
def fgt (a b : F) : Bool := flt b a

/-- IEEE `≤` on stored values: any comparison with NaN is false. -/
def fle : F → F → Bool
  | nan, _ => false
  | _, nan => false
  | fin a, fin b => decide (a ≤ b)
  | fin _, pinf => true
  | fin _, ninf => false
  | pinf, pinf => true
  | pinf, _ => false
  | ninf, _ => true

/-- IEEE `==` on stored values: NaN is not equal to anything. -/
def feq : F → F → Bool
  | nan, _ => false
  | _, nan => false
  | fin a, fin b => decide (a = b)
  | pinf, pinf => true
  | ninf, ninf => true
  | _, _ => false

theorem flt_irrefl (a : F) : flt a a = false := by
  cases a <;> simp [flt]

theorem flt_nonNan {a b : F} (h : flt a b = true) :
    isNan a = false ∧ isNan b = false := by
  cases a <;> cases b <;> simp_all [flt, isNan]

theorem flt_trans {a b c : F} (h1 : flt a b = true) (h2 : flt b c = true) :
    flt a c = true := by
  cases a <;> cases b <;> cases c <;> simp_all [flt] <;> linarith

theorem flt_total {a b : F} (ha : isNan a = false) (hb : isNan b = false)
    (h : flt a b = false) : a = b ∨ flt b a = true := by
  cases a <;> cases b <;> simp_all [flt, isNan]
  rcases lt_or_eq_of_le h with h2 | h2
  · exact Or.inr h2
  · exact Or.inl h2.symm

theorem fle_refl {a : F} (ha : isNan a = false) : fle a a = true := by
  cases a <;> simp_all [fle, isNan]

theorem flt_imp_fle {a b : F} (h : flt a b = true) : fle a b = true := by
  cases a <;> cases b <;> simp_all [flt, fle] <;> linarith

theorem not_flt_imp_fle {a b : F} (ha : isNan a = false) (hb : isNan b = false)
    (h : flt a b = false) : fle b a = true := by
  cases a <;> cases b <;> simp_all [flt, fle, isNan]

theorem flt_of_flt_of_not_flt {s h p : F} (h1 : flt s h = true)
    (hp : isNan p = false) (h2 : flt p h = false) : flt s p = true := by
  have hh := flt_nonNan h1
  rcases flt_total hp hh.2 h2 with he | hlt
  · exact he ▸ h1
  · exact flt_trans h1 hlt

end F

open F

/-- The interleaved value buffer: flat index `channel + 3 * row ↦ value`. -/
abbrev Vals := Nat → F

/-- Decode a 16-bit half bit-pattern to its exact value
(IEEE 754 binary16; used by `fill` for half-domain LUTs, where
`half htemp; htemp.setBits(idx)` is converted to float, exactly). -/
def halfToVal (i : Nat) : F :=
  let b := i % 65536
  let s := b / 32768
  let e := (b / 1024) % 32
  let m := b % 1024
  if e = 31 then
    if m = 0 then (if s = 1 then F.ninf else F.pinf) else F.nan
  else
    let mag : ℚ :=
      if e = 0 then (m : ℚ) / 2 ^ 24 else ((1024 + m : ℕ) : ℚ) * 2 ^ e / 2 ^ 25
    F.fin (if s = 1 then -mag else mag)

/-- `Lut3by1DArray::fill` for a half-domain LUT:
`values[channel + 3*idx] = (float)half(idx)`. -/
def fillHalf : Vals := fun j => halfToVal (j / 3)

/-- `Lut3by1DArray::fill` for a standard-domain LUT of dimension `dim`:
`values[channel + 3*idx] = idx * (1/(dim-1))` (embedded exactly). -/
def fillStd (dim : Nat) : Vals := fun j => F.fin ((j / 3 : ℕ) * (1 / ((dim : ℚ) - 1)))

/-- The two half flags (`LUT_INPUT_HALF_CODE`, `LUT_OUTPUT_HALF_CODE`);
`LUT_STANDARD` is both clear. -/
structure HalfFlags where
  inputHalf : Bool
  outputHalf : Bool
deriving DecidableEq

def LUT_STANDARD : HalfFlags := ⟨false, false⟩
def LUT_INPUT_HALF_CODE : HalfFlags := ⟨true, false⟩

/-- The value array of a LUT1D (`Lut3by1DArray`): the buffer always holds
`length * 3` values; `nComps` is the logical channel count. -/
structure LutArray where
  length : Nat
  nComps : Nat
  v : Vals

/-- `Lut3by1DArray::fill(halfFlags)` dispatch. -/
def fillVals (inputHalf : Bool) (dim : Nat) : Vals :=
  if inputHalf then fillHalf else fillStd dim

/-- `Lut3by1DArray::Lut3by1DArray(halfFlags, length)`: reject `length < 2`,
then `resize` (which also rejects `length > 1024*1024`), then `fill`. -/
def newLutArray (inputHalf : Bool) (length : Nat) : Except String LutArray :=
  if length < 2 then
    .error "LUT 1D length needs to be at least 2."
  else if length > 1024 * 1024 then
    .error "LUT 1D: Length must not be greater than 1024x1024 (1048576)."
  else
    .ok ⟨length, 3, fillVals inputHalf length⟩

inductive Interpolation where
  | default | linear | nearest | best | cubic | tetrahedral | unknown
deriving DecidableEq

inductive TransformDirection where
  | forward | inverse
deriving DecidableEq

inductive Lut1DHueAdjust where
  | none | dw3
deriving DecidableEq

inductive LutInversionQuality where
  | fast | exact | best
deriving DecidableEq

inductive BitDepth where
  | uint8 | uint10 | uint12 | uint14 | uint16 | uint32 | f16 | f32 | unknown
deriving DecidableEq

/-- Modelled from the spec: format metadata is an opaque attribute bag whose
only operation used here is `combine` (merge); embedded as a list of tokens
with `combine` as concatenation. -/
abbrev Metadata := List String

/-- Modelled from the spec: `FormatMetadataImpl::combine` merges the other
LUT's metadata into this one. -/
def Metadata.combine (a b : Metadata) : Metadata := List.append a b

/-- The LUT1D entity (`Lut1DOpData`).  `arrayOk` stands for the outcome of
the value array's own structural check (`Array::validate`, external to this
file), kept abstract.  `incs` holds `m_componentProperties[c].isIncreasing`
(the effective-domain fields of the component properties are not embedded:
that pass only reads the value array). -/
structure Lut1D where
  length : Nat
  nComps : Nat
  vals : Vals
  halfFlags : HalfFlags
  interp : Interpolation
  hueAdjust : Lut1DHueAdjust
  direction : TransformDirection
  invQuality : LutInversionQuality
  fileOutputBitDepth : BitDepth
  metadata : Metadata
  cacheID : String
  arrayOk : Bool
  incs : Nat → Bool

/-- `Lut1DOpData::Lut1DOpData(HalfFlags, unsigned long)`: default
interpolation, forward direction, no hue adjust, fast inversion quality. -/
def newLut1D (halfFlags : HalfFlags) (dimension : Nat) : Except String Lut1D :=
  (newLutArray halfFlags.inputHalf dimension).map fun a =>
    { length := a.length
      nComps := a.nComps
      vals := a.v
      halfFlags := halfFlags
      interp := .default
      hueAdjust := .none
      direction := .forward
      invQuality := .fast
      fileOutputBitDepth := .unknown
      metadata := []
      cacheID := ""
      arrayOk := true
      incs := fun _ => false }

/-- `getNumValues()` = `length * getMaxColorComponents()` = `length * 3`. -/
def numValues (L : Lut1D) : Nat := L.length * 3

/-- A stored value outside `[0 - 1e-5, 1 + 1e-5]` (NaNs skipped), as tested
by `Lut1DOpData::hasExtendedRange`. -/
def extRangeBad : F → Bool
  | .nan => false
  | .pinf => true
  | .ninf => true
  | .fin q => decide (q < 0 - 1 / 100000) || decide (q > 1 + 1 / 100000)

/-- `Lut1DOpData::hasExtendedRange()`: true iff some stored (non-NaN) value
lies outside `[0 - 1e-5, 1 + 1e-5]`. -/
def hasExtendedRange (L : Lut1D) : Bool :=
  (List.range (numValues L)).any fun j => extRangeBad (L.vals j)

/-- The anonymous-namespace `IsValid(Interpolation)` of the source: BEST,
DEFAULT, LINEAR and NEAREST are accepted, everything else rejected. -/
def interpIsValid : Interpolation → Bool
  | .best => true
  | .default => true
  | .linear => true
  | .nearest => true
  | .cubic => false
  | .tetrahedral => false
  | .unknown => false

/-- `Lut1DOpData::validate()`: base-class validation never fails (modelled
from the spec, which lists exactly the three failure causes below); then the
interpolation check, the array's own structural check, and the half-domain
length requirement, in source order. -/
def validate (L : Lut1D) : Except String Unit :=
  if !interpIsValid L.interp then
    .error "1D LUT does not support interpolation algorithm."
  else if !L.arrayOk then
    .error "1D LUT content array issue."
  else if L.halfFlags.inputHalf && !(L.length == 65536) then
    .error "entries found, 65536 required for halfDomain 1D LUT."
  else
    .ok ()

/-- `Lut1DOpData::getConcreteInterpolation()`: always LINEAR. -/
def getConcreteInterpolation (_ : Lut1D) : Interpolation := .linear

/-! ## `prepareArray`: direction detection and reversal flattening -/

/-- The index sequence visited by `for (idx = start; idx <= stop; idx += step)`
(used with `step = 3 = maxChannels`). -/
def idxSeq (start step stop : Nat) : List Nat :=
  if start ≤ stop then
    (List.range ((stop - start) / step + 1)).map (fun k => start + step * k)
  else []

/-- One iteration of the reversal-flattening loop body:
`if (isIncreasing != (values[idx] > prevValue)) values[idx] = prevValue;
else prevValue = values[idx];`. -/
def flattenStep (inc : Bool) (st : Vals × F) (idx : Nat) : Vals × F :=
  if inc != fgt (st.1 idx) st.2 then (Function.update st.1 idx st.2, st.2)
  else (st.1, st.1 idx)

/-- The flattening loop over a list of indices, from a `(values, prevValue)`
state. -/
def flattenGo (inc : Bool) (st : Vals × F) (L : List Nat) : Vals × F :=
  L.foldl (flattenStep inc) st

/-- Per-channel body of `Lut1DOpData::prepareArray` for a standard-domain
LUT: direction detection over `lowInd = c`, `highInd = (length-1)*maxChannels
+ c`, then reversal flattening with `idx` from `c + maxChannels` while
`idx < length * maxChannels` (equivalently `idx ≤ length*3 - 1`), seeded
with `values[c]`.  Returns the updated buffer and the detected
`isIncreasing`. -/
def prepChannelStd (length c : Nat) (v : Vals) : Vals × Bool :=
  let inc := flt (v c) (v ((length - 1) * 3 + c))
  ((flattenGo inc (v, v c) (idxSeq (c + 3) 3 (length * 3 - 1))).1, inc)

/-- Per-channel body of `Lut1DOpData::prepareArray` for a half-domain LUT:
direction detection over `lowInd = 0*3 + c`, `highInd = 15360*3 + c =
46080 + c`; positive flattening with `idx` from `startInd + 3` while
`idx <= 31744*3 = 95232` seeded with `values[startInd]` (`startInd = c`);
then negative flattening in the opposite direction with `idx` from
`32768*3 + c = 98304 + c` while `idx <= 64512*3 = 193536`, seeded with
`values[c]` (the +0 row, to disallow overlaps). -/
def prepChannelHalf (c : Nat) (v : Vals) : Vals × Bool :=
  let inc := flt (v c) (v (46080 + c))
  let p := flattenGo inc (v, v c) (idxSeq (c + 3) 3 95232)
  let q := flattenGo (!inc) (p.1, p.1 c) (idxSeq (98304 + c) 3 193536)
  (q.1, inc)

/-- Per-channel body of `Lut1DOpData::prepareArray` (dispatch on
`isInputHalfDomain()`). -/
def prepChannel (halfDomain : Bool) (length c : Nat) (v : Vals) : Vals × Bool :=
  if halfDomain then prepChannelHalf c v else prepChannelStd length c v

/-- One step of the `for (c = 0; c < activeChannels; ++c)` loop of
`prepareArray`, threading the buffer and recording the detected direction. -/
def prepChannelStep (halfDomain : Bool) (length : Nat) (st : Vals × (Nat → Bool))
    (c : Nat) : Vals × (Nat → Bool) :=
  let r := prepChannel halfDomain length c st.1
  (r.1, Function.update st.2 c r.2)

/-- `Lut1DOpData::prepareArray` on the raw buffer: per-channel detection and
flattening; when there is a single active channel, channels 1 and 2 inherit
channel 0's component properties. -/
def prepareVals (halfDomain : Bool) (length activeChannels : Nat) (v : Vals) :
    Vals × (Nat → Bool) :=
  let r := (List.range activeChannels).foldl (prepChannelStep halfDomain length)
    (v, fun _ => false)
  if activeChannels = 1 then (r.1, fun _ => r.2 0) else r

/-- `Lut1DOpData::prepareArray` at the LUT level (`activeChannels` is
`getNumColorComponents()`). -/
def prepareArray (L : Lut1D) : Lut1D :=
  let r := prepareVals L.halfFlags.inputHalf L.length L.nComps L.vals
  { L with vals := r.1, incs := r.2 }

/-! ### Walk lemmas -/

theorem flattenStep_fst_ne {inc : Bool} {st : Vals × F} {a j : Nat} (hja : j ≠ a) :
    (flattenStep inc st a).1 j = st.1 j := by
  unfold flattenStep
  split
  · exact Function.update_noteq hja _ _
  · rfl

theorem flattenGo_cons (inc : Bool) (st : Vals × F) (a : Nat) (L : List Nat) :
    flattenGo inc st (a :: L) = flattenGo inc (flattenStep inc st a) L := rfl

theorem flattenGo_untouched {j : Nat} :
    ∀ (L : List Nat) (inc : Bool) (st : Vals × F), j ∉ L →
      (flattenGo inc st L).1 j = st.1 j := by
  intro L
  induction L with
  | nil => intro inc st _; rfl
  | cons a L ih =>
    intro inc st hj
    rw [List.mem_cons, not_or] at hj
    rw [flattenGo_cons, ih _ _ hj.2, flattenStep_fst_ne hj.1]

theorem flattenGo_const {z : F} :
    ∀ (L : List Nat) (inc : Bool) (v : Vals), (∀ a ∈ L, v a = z) →
      flattenGo inc (v, z) L = (v, z) := by
  intro L
  induction L with
  | nil => intro inc v _; rfl
  | cons a L ih =>
    intro inc v hv
    have hva : v a = z := hv a (List.mem_cons_self a L)
    have hstep : flattenStep inc (v, z) a = (v, z) := by
      unfold flattenStep
      have : fgt (v a) z = false := by rw [hva]; exact flt_irrefl z
      rw [this]
      cases inc with
      | false => simp [hva]
      | true => simp [hva ▸ Function.update_eq_self a v]
    rw [flattenGo_cons, hstep]
    exact ih inc v fun b hb => hv b (List.mem_cons_of_mem a hb)

theorem mem_idxSeq {a s b j : Nat} (h : j ∈ idxSeq a s b) :
    a ≤ b ∧ ∃ k, k ≤ (b - a) / s ∧ j = a + s * k := by
  unfold idxSeq at h
  split at h
  · simp only [List.mem_map, List.mem_range] at h
    obtain ⟨k, hk, rfl⟩ := h
    exact ⟨by assumption, k, Nat.lt_succ_iff.mp hk, rfl⟩
  · simp at h

theorem idxSeq_mem {a s b k : Nat} (hab : a ≤ b) (hk : k ≤ (b - a) / s) :
    a + s * k ∈ idxSeq a s b := by
  unfold idxSeq
  rw [if_pos hab]
  simp only [List.mem_map, List.mem_range]
  exact ⟨k, Nat.lt_succ_of_le hk, rfl⟩

theorem mem_idxSeq_ge {a s b j : Nat} (h : j ∈ idxSeq a s b) : a ≤ j := by
  obtain ⟨-, k, -, rfl⟩ := mem_idxSeq h
  exact Nat.le_add_right a (s * k)

theorem mem_idxSeq_le {a s b j : Nat} (h : j ∈ idxSeq a s b) : j ≤ b := by
  obtain ⟨hab, k, hk, rfl⟩ := mem_idxSeq h
  have h1 : s * k ≤ s * ((b - a) / s) := Nat.mul_le_mul_left s hk
  have h2 : s * ((b - a) / s) ≤ b - a := by
    rw [Nat.mul_comm]; exact Nat.div_mul_le_self (b - a) s
  omega

theorem mem_idxSeq_mod {a s b j : Nat} (h : j ∈ idxSeq a s b) : j % s = a % s := by
  obtain ⟨-, k, -, rfl⟩ := mem_idxSeq h
  rw [Nat.mul_comm]
  exact Nat.add_mul_mod_self_right a k s

theorem idxSeq_nodup (a b : Nat) {s : Nat} (hs : 0 < s) : (idxSeq a s b).Nodup := by
  unfold idxSeq
  split
  · refine List.Nodup.map ?_ (List.nodup_range _)
    intro k1 k2 hk
    have := Nat.add_left_cancel hk
    exact Nat.eq_of_mul_eq_mul_left hs this
  · exact List.nodup_nil

/-- The walk only depends on the values at the indices it visits: two
buffers agreeing on a class `P` covering the index list produce walks that
agree on `P`, with equal final `prevValue`. -/
theorem flattenGo_congr {P : Nat → Prop} :
    ∀ (L : List Nat) (inc : Bool) (v w : Vals) (p : F),
      (∀ j, P j → v j = w j) → (∀ j ∈ L, P j) →
      (flattenGo inc (v, p) L).2 = (flattenGo inc (w, p) L).2 ∧
      ∀ j, P j → (flattenGo inc (v, p) L).1 j = (flattenGo inc (w, p) L).1 j := by
  intro L
  induction L with
  | nil => intro inc v w p hvw _; exact ⟨rfl, fun j hj => hvw j hj⟩
  | cons a L ih =>
    intro inc v w p hvw hL
    have hva : v a = w a := hvw a (hL a (List.mem_cons_self a L))
    have hLP : ∀ j ∈ L, P j := fun j hj => hL j (List.mem_cons_of_mem a hj)
    rw [flattenGo_cons, flattenGo_cons]
    unfold flattenStep
    dsimp only
    rw [hva]
    split
    · exact ih inc _ _ p
        (fun j hj => by
          by_cases hja : j = a
          · subst hja; rw [Function.update_same, Function.update_same]
          · rw [Function.update_noteq hja, Function.update_noteq hja]; exact hvw j hj)
        hLP
    · exact ih inc v w (w a) hvw hLP

/-- Idempotence of the flattening walk: re-walking its own output with the
same seed changes nothing. -/
theorem flattenGo_idem :
    ∀ (L : List Nat) (inc : Bool) (v : Vals) (p : F), L.Nodup →
      flattenGo inc ((flattenGo inc (v, p) L).1, p) L = flattenGo inc (v, p) L := by
  intro L
  induction L with
  | nil => intro inc v p _; rfl
  | cons a L ih =>
    intro inc v p hnd
    rw [List.nodup_cons] at hnd
    rw [flattenGo_cons, flattenGo_cons]
    have hva : (flattenGo inc (flattenStep inc (v, p) a) L).1 a
        = (flattenStep inc (v, p) a).1 a := flattenGo_untouched L inc _ hnd.1
    set v1 := (flattenGo inc (flattenStep inc (v, p) a) L).1 with hv1
    by_cases hc : (inc != fgt (v a) p) = true
    · -- first walk clamped at a
      have hstep1 : flattenStep inc (v, p) a = (Function.update v a p, p) := by
        unfold flattenStep; dsimp only; rw [if_pos hc]
      have hva2 : v1 a = p := by
        rw [hva, hstep1]; exact Function.update_same a p v
      have hstep2 : flattenStep inc (v1, p) a = (v1, p) := by
        unfold flattenStep
        dsimp only
        rw [hva2]
        unfold fgt
        rw [flt_irrefl]
        cases hi : inc with
        | true =>
          rw [if_pos (by simp)]
          rw [show Function.update v1 a p = v1 from hva2 ▸ Function.update_eq_self a v1]
        | false =>
          rw [if_neg (by simp)]
      rw [hstep2, hv1, hstep1]
      exact ih inc _ p hnd.2
    · -- first walk kept a
      have hkeep : fgt (v a) p = inc := by
        cases hg : fgt (v a) p <;> cases hi : inc <;> simp [hg, hi] at hc ⊢
      have hstep1 : flattenStep inc (v, p) a = (v, v a) := by
        unfold flattenStep; dsimp only; rw [if_neg hc]
      have hva2 : v1 a = v a := by rw [hva, hstep1]
      have hstep2 : flattenStep inc (v1, p) a = (v1, v a) := by
        unfold flattenStep
        dsimp only
        rw [hva2, hkeep]
        rw [if_neg (by simp)]
      rw [hstep2, hv1, hstep1]
      exact ih inc v (v a) hnd.2

/-- The final value at a visited index: either the original value was kept
(consistent with the direction) or it was clamped to the `prevValue` `q` in
force at that step; when walking in the increasing direction from a non-NaN
seed, that `prevValue` is never NaN. -/
theorem flattenGo_mem_val :
    ∀ (L : List Nat) (inc : Bool) (v : Vals) (p : F), L.Nodup → ∀ a ∈ L,
      ∃ q : F,
        (inc = true → isNan p = false → isNan q = false) ∧
        (((flattenGo inc (v, p) L).1 a = v a ∧ fgt (v a) q = inc) ∨
         ((flattenGo inc (v, p) L).1 a = q ∧ fgt (v a) q ≠ inc)) := by
  intro L
  induction L with
  | nil => intro inc v p _ a ha; exact absurd ha (List.not_mem_nil a)
  | cons b L ih =>
    intro inc v p hnd a ha
    rw [List.nodup_cons] at hnd
    rw [flattenGo_cons]
    rcases List.mem_cons.mp ha with hab | haL
    · subst hab
      refine ⟨p, fun _ h => h, ?_⟩
      by_cases hc : (inc != fgt (v a) p) = true
      · have hstep1 : flattenStep inc (v, p) a = (Function.update v a p, p) := by
          unfold flattenStep; dsimp only; rw [if_pos hc]
        have hfin : (flattenGo inc (flattenStep inc (v, p) a) L).1 a = p := by
          rw [flattenGo_untouched L inc _ hnd.1, hstep1]
          exact Function.update_same a p v
        exact Or.inr ⟨hfin, fun h => by simp [h] at hc⟩
      · have hkeep : fgt (v a) p = inc := by
          cases hg : fgt (v a) p <;> cases hi : inc <;> simp [hg, hi] at hc ⊢
        have hstep1 : flattenStep inc (v, p) a = (v, v a) := by
          unfold flattenStep; dsimp only; rw [if_neg hc]
        have hfin : (flattenGo inc (flattenStep inc (v, p) a) L).1 a = v a := by
          rw [flattenGo_untouched L inc _ hnd.1, hstep1]
        exact Or.inl ⟨hfin, hkeep⟩
    · have hab : a ≠ b := fun h => hnd.1 (h ▸ haL)
      unfold flattenStep
      dsimp only
      split
      · obtain ⟨q, hq1, hq2⟩ := ih inc (Function.update v b p) p hnd.2 a haL
        rw [Function.update_noteq hab] at hq2
        exact ⟨q, hq1, hq2⟩
      · rename_i hkeep
        obtain ⟨q, hq1, hq2⟩ := ih inc v (v b) hnd.2 a haL
        refine ⟨q, fun hi hp => ?_, hq2⟩
        have : fgt (v b) p = inc := by
          cases hg : fgt (v b) p <;> cases hi2 : inc <;> simp [hg, hi2] at hkeep ⊢
        subst hi
        exact hq1 rfl ((flt_nonNan (this ▸ rfl : flt p (v b) = true)).2)

/-- Walking does not change the direction that detection would re-derive:
if `inc` was detected as `s < v high` and `high` is visited by the walk
seeded with `s`, then comparing `s` with the walked value at `high` gives
`inc` again. -/
theorem flattenGo_detect_stable {L : List Nat} {inc : Bool} {v : Vals} {s : F}
    {high : Nat} (hnd : L.Nodup) (hmem : high ∈ L)
    (hinc : inc = flt s (v high)) :
    flt s ((flattenGo inc (v, s) L).1 high) = inc := by
  obtain ⟨q, hqn, hq⟩ := flattenGo_mem_val L inc v s hnd high hmem
  rcases hq with ⟨hval, -⟩ | ⟨hval, hne⟩
  · rw [hval]; exact hinc.symm
  · rw [hval]
    cases hi : inc with
    | true =>
      have hsv : flt s (v high) = true := by rw [hi] at hinc; exact hinc.symm
      have hqnn : isNan q = false := hqn hi (flt_nonNan hsv).1
      have hqv : flt q (v high) = false := by
        rw [hi] at hne
        unfold fgt at hne
        cases hx : flt q (v high)
        · rfl
        · exact absurd hx hne
      exact flt_of_flt_of_not_flt hsv hqnn hqv
    | false =>
      have hsv : flt s (v high) = false := by rw [hi] at hinc; exact hinc.symm
      have hqv : flt q (v high) = true := by
        rw [hi] at hne
        unfold fgt at hne
        cases hx : flt q (v high)
        · exact absurd hx hne
        · rfl
      cases hsq : flt s q
      · rfl
      · exact absurd (flt_trans hsq hqv) (by simp [hsv])

/-- Direction-compatibility of two adjacent samples. -/
def dirOk (inc : Bool) (a b : F) : Prop :=
  if inc then fle a b = true else fle b a = true

/-- After the walk, the seed followed by the values at the visited indices
form a chain compatible with the walked direction (for the decreasing
direction this needs the original visited values to be non-NaN). -/
theorem flattenGo_chain :
    ∀ (L : List Nat) (inc : Bool) (v : Vals) (p : F), L.Nodup →
      isNan p = false → (inc = false → ∀ a ∈ L, isNan (v a) = false) →
      List.Chain (dirOk inc) p (L.map fun a => (flattenGo inc (v, p) L).1 a) := by
  intro L
  induction L with
  | nil => intro inc v p _ _ _; exact List.Chain.nil
  | cons b L ih =>
    intro inc v p hnd hp hnn
    rw [List.nodup_cons] at hnd
    rw [List.map_cons, flattenGo_cons]
    by_cases hc : (inc != fgt (v b) p) = true
    · have hstep1 : flattenStep inc (v, p) b = (Function.update v b p, p) := by
        unfold flattenStep; dsimp only; rw [if_pos hc]
      have hfin : (flattenGo inc (flattenStep inc (v, p) b) L).1 b = p := by
        rw [flattenGo_untouched L inc _ hnd.1, hstep1]
        exact Function.update_same b p v
      refine List.Chain.cons ?_ ?_
      · rw [hfin]
        unfold dirOk
        split
        · exact fle_refl hp
        · exact fle_refl hp
      · rw [hstep1] at hfin
        rw [hstep1, hfin]
        exact ih inc (Function.update v b p) p hnd.2 hp
          (fun hif a ha => by
            have hab : a ≠ b := fun h => hnd.1 (h ▸ ha)
            rw [Function.update_noteq hab]
            exact hnn hif a (List.mem_cons_of_mem b ha))
    · have hkeep : fgt (v b) p = inc := by
        cases hg : fgt (v b) p <;> cases hi : inc <;> simp [hg, hi] at hc ⊢
      have hstep1 : flattenStep inc (v, p) b = (v, v b) := by
        unfold flattenStep; dsimp only; rw [if_neg hc]
      have hfin : (flattenGo inc (flattenStep inc (v, p) b) L).1 b = v b := by
        rw [flattenGo_untouched L inc _ hnd.1, hstep1]
      have hvbn : isNan (v b) = false := by
        cases hi : inc
        · exact hnn hi b (List.mem_cons_self b L)
        · rw [hi] at hkeep
          exact (flt_nonNan (hkeep : flt p (v b) = true)).2
      refine List.Chain.cons ?_ ?_
      · rw [hfin]
        unfold dirOk
        cases hi : inc with
        | true =>
          rw [if_pos rfl]
          rw [hi] at hkeep
          exact flt_imp_fle (hkeep : flt p (v b) = true)
        | false =>
          rw [if_neg (by simp)]
          rw [hi] at hkeep
          exact not_flt_imp_fle hp hvbn (hkeep : flt p (v b) = false)
      · rw [hstep1] at hfin
        rw [hstep1, hfin]
        exact ih inc v (v b) hnd.2 hvbn
          (fun hif a ha => hnn hif a (List.mem_cons_of_mem b ha))

/-! ### Per-channel lemmas -/

theorem idxSeq3_nodup (a b : Nat) : (idxSeq a 3 b).Nodup :=
  idxSeq_nodup a b (by norm_num)

/-- The standard-domain per-channel pass only writes indices of its own
channel class. -/
theorem prepChannelStd_untouched {length c j : Nat} (h : j % 3 ≠ c % 3) (v : Vals) :
    (prepChannelStd length c v).1 j = v j := by
  unfold prepChannelStd
  exact flattenGo_untouched _ _ _ (fun hm => h (by have := mem_idxSeq_mod hm; omega))

/-- The half-domain per-channel pass only writes indices of its own channel
class. -/
theorem prepChannelHalf_untouched {c j : Nat} (h : j % 3 ≠ c % 3) (v : Vals) :
    (prepChannelHalf c v).1 j = v j := by
  unfold prepChannelHalf
  dsimp only
  rw [flattenGo_untouched _ _ _ (fun hm => h (by have := mem_idxSeq_mod hm; omega))]
  exact flattenGo_untouched _ _ _ (fun hm => h (by have := mem_idxSeq_mod hm; omega))

theorem prepChannel_untouched {hd : Bool} {length c j : Nat} (h : j % 3 ≠ c % 3)
    (v : Vals) : (prepChannel hd length c v).1 j = v j := by
  unfold prepChannel
  cases hd
  · exact prepChannelStd_untouched h v
  · exact prepChannelHalf_untouched h v

/-- The standard-domain per-channel pass only reads indices of its own
channel class. -/
theorem prepChannelStd_congr {length c : Nat} {v w : Vals}
    (hvw : ∀ j, j % 3 = c % 3 → v j = w j) :
    (prepChannelStd length c v).2 = (prepChannelStd length c w).2 ∧
    ∀ j, j % 3 = c % 3 →
      (prepChannelStd length c v).1 j = (prepChannelStd length c w).1 j := by
  have hlow : v c = w c := hvw c rfl
  have hhigh : v ((length - 1) * 3 + c) = w ((length - 1) * 3 + c) := hvw _ (by omega)
  unfold prepChannelStd
  dsimp only
  rw [hlow, hhigh]
  refine ⟨rfl, ?_⟩
  exact (flattenGo_congr _ _ v w (w c) hvw
    (fun j hj => by have := mem_idxSeq_mod hj; omega)).2

/-- The half-domain per-channel pass only reads indices of its own channel
class. -/
theorem prepChannelHalf_congr {c : Nat} {v w : Vals}
    (hvw : ∀ j, j % 3 = c % 3 → v j = w j) :
    (prepChannelHalf c v).2 = (prepChannelHalf c w).2 ∧
    ∀ j, j % 3 = c % 3 →
      (prepChannelHalf c v).1 j = (prepChannelHalf c w).1 j := by
  have hlow : v c = w c := hvw c rfl
  have hhigh : v (46080 + c) = w (46080 + c) := hvw _ (by omega)
  unfold prepChannelHalf
  dsimp only
  rw [hlow, hhigh]
  have hpos := flattenGo_congr (idxSeq (c + 3) 3 95232) (flt (w c) (w (46080 + c)))
    v w (w c) hvw (fun j hj => by have := mem_idxSeq_mod hj; omega)
  have hseedc : (flattenGo (flt (w c) (w (46080 + c))) (v, w c) (idxSeq (c + 3) 3 95232)).1 c
      = (flattenGo (flt (w c) (w (46080 + c))) (w, w c) (idxSeq (c + 3) 3 95232)).1 c :=
    hpos.2 c rfl
  rw [hseedc]
  refine ⟨rfl, ?_⟩
  exact (flattenGo_congr _ _ _ _ _ hpos.2
    (fun j hj => by have := mem_idxSeq_mod hj; omega)).2

theorem prepChannel_congr {hd : Bool} {length c : Nat} {v w : Vals}
    (hvw : ∀ j, j % 3 = c % 3 → v j = w j) :
    (prepChannel hd length c v).2 = (prepChannel hd length c w).2 ∧
    ∀ j, j % 3 = c % 3 →
      (prepChannel hd length c v).1 j = (prepChannel hd length c w).1 j := by
  unfold prepChannel
  cases hd
  · exact prepChannelStd_congr hvw
  · exact prepChannelHalf_congr hvw

/-- Re-running the standard-domain per-channel pass on its own output is a
no-op: direction re-detection yields the same direction, and the flattening
walk is idempotent. -/
theorem prepChannelStd_idem {length c : Nat} (hc : c < 3) (v : Vals) :
    prepChannelStd length c ((prepChannelStd length c v).1) = prepChannelStd length c v := by
  unfold prepChannelStd
  dsimp only
  set L := idxSeq (c + 3) 3 (length * 3 - 1) with hL
  set inc := flt (v c) (v ((length - 1) * 3 + c)) with hinc
  set v1 := (flattenGo inc (v, v c) L).1 with hv1
  have hcl : v1 c = v c :=
    flattenGo_untouched L inc _ (fun hm => by have := mem_idxSeq_ge hm; omega)
  have hstable : flt (v1 c) (v1 ((length - 1) * 3 + c)) = inc := by
    rcases Nat.lt_or_ge length 2 with hlen | hlen
    · have hLnil : L = [] := by
        rw [hL]; unfold idxSeq; rw [if_neg]; omega
      have hv1v : v1 = v := by rw [hv1, hLnil]; rfl
      rw [hv1v, hinc]
    · have hmem : (length - 1) * 3 + c ∈ L := by
        have heq : (length - 1) * 3 + c = (c + 3) + 3 * (length - 2) := by omega
        rw [hL, heq]
        apply idxSeq_mem
        · omega
        · rw [Nat.le_div_iff_mul_le (by norm_num)]
          omega
      rw [hcl, hv1]
      exact flattenGo_detect_stable (idxSeq3_nodup _ _) hmem hinc
  rw [hstable, hcl, hv1, flattenGo_idem L inc v (v c) (idxSeq3_nodup _ _)]

/-- Re-running the half-domain per-channel pass on its own output is a
no-op. -/
theorem prepChannelHalf_idem {c : Nat} (hc : c < 3) (v : Vals) :
    prepChannelHalf c ((prepChannelHalf c v).1) = prepChannelHalf c v := by
  unfold prepChannelHalf
  dsimp only
  set posL := idxSeq (c + 3) 3 95232 with hposL
  set negL := idxSeq (98304 + c) 3 193536 with hnegL
  set inc := flt (v c) (v (46080 + c)) with hinc
  set p1 := (flattenGo inc (v, v c) posL).1 with hp1
  set q1 := (flattenGo (!inc) (p1, p1 c) negL).1 with hq1
  have hqp : ∀ j, j < 98304 → q1 j = p1 j := fun j hj =>
    flattenGo_untouched negL _ _ (fun hm => by have := mem_idxSeq_ge hm; omega)
  have hpv : ∀ j, j < c + 3 → p1 j = v j := fun j hj =>
    flattenGo_untouched posL _ _ (fun hm => by have := mem_idxSeq_ge hm; omega)
  have hqc : q1 c = v c := by
    rw [hqp c (by omega), hpv c (by omega)]
  have hmemhigh : 46080 + c ∈ posL := by
    have heq : 46080 + c = (c + 3) + 3 * 15359 := by omega
    rw [hposL, heq]
    apply idxSeq_mem
    · omega
    · rw [Nat.le_div_iff_mul_le (by norm_num)]
      omega
  have hstable : flt (q1 c) (q1 (46080 + c)) = inc := by
    rw [hqc, hqp _ (by omega), hp1]
    exact flattenGo_detect_stable (idxSeq3_nodup _ _) hmemhigh hinc
  rw [hstable, hqc]
  -- The second positive walk reproduces `q1`.
  have hpos2 : (flattenGo inc (q1, v c) posL).1 = q1 := by
    funext j
    by_cases hj : j ∈ posL
    · have hcg := (flattenGo_congr posL inc q1 p1 (v c)
        (fun i hi => hqp i (by have := mem_idxSeq_le hi; omega))
        (fun i hi => hi)).2 j hj
      rw [hcg, hp1, flattenGo_idem posL inc v (v c) (idxSeq3_nodup _ _)]
      exact (hqp j (by have := mem_idxSeq_le hj; omega)).symm
    · exact flattenGo_untouched posL inc _ hj
  rw [hpos2]
  -- The second negative walk reproduces `q1` as well (its seed `q1 c` is
  -- the original seed `p1 c`).
  rw [hqp c (by omega), hq1, flattenGo_idem negL (!inc) p1 (p1 c) (idxSeq3_nodup _ _)]

theorem prepChannel_idem {hd : Bool} {length c : Nat} (hc : c < 3) (v : Vals) :
    prepChannel hd length c ((prepChannel hd length c v).1) = prepChannel hd length c v := by
  unfold prepChannel
  cases hd
  · exact prepChannelStd_idem hc v
  · exact prepChannelHalf_idem hc v

/-! ### The channel loop -/

theorem prepareVals_eq_fold (hd : Bool) (length ac : Nat) (v : Vals) :
    prepareVals hd length ac v =
      (if ac = 1 then
        (((List.range ac).foldl (prepChannelStep hd length) (v, fun _ => false)).1,
         fun _ => ((List.range ac).foldl (prepChannelStep hd length) (v, fun _ => false)).2 0)
      else (List.range ac).foldl (prepChannelStep hd length) (v, fun _ => false)) := by
  unfold prepareVals
  split
  · rfl
  · rfl

theorem prepFold_vals_untouched {hd : Bool} {length j : Nat} :
    ∀ (cs : List Nat) (st : Vals × (Nat → Bool)), (∀ c ∈ cs, j % 3 ≠ c % 3) →
      (cs.foldl (prepChannelStep hd length) st).1 j = st.1 j := by
  intro cs
  induction cs with
  | nil => intro st _; rfl
  | cons b cs ih =>
    intro st hcs
    rw [List.foldl_cons, ih _ (fun c hc => hcs c (List.mem_cons_of_mem b hc))]
    exact prepChannel_untouched (hcs b (List.mem_cons_self b cs)) st.1

theorem prepFold_incs_untouched {hd : Bool} {length i : Nat} :
    ∀ (cs : List Nat) (st : Vals × (Nat → Bool)), i ∉ cs →
      (cs.foldl (prepChannelStep hd length) st).2 i = st.2 i := by
  intro cs
  induction cs with
  | nil => intro st _; rfl
  | cons b cs ih =>
    intro st hi
    rw [List.mem_cons, not_or] at hi
    rw [List.foldl_cons, ih _ hi.2]
    exact Function.update_noteq hi.1 _ _

/-- Inside the channel loop, the result on channel `c`'s index class (and
the recorded direction for `c`) is what the per-channel pass computes from
the buffer as it was when the loop started: the other channels touch
disjoint classes. -/
theorem prepFold_class {hd : Bool} {length : Nat} :
    ∀ (cs : List Nat), cs.Nodup → (∀ c ∈ cs, c < 3) → ∀ c ∈ cs,
      ∀ (st : Vals × (Nat → Bool)),
      (cs.foldl (prepChannelStep hd length) st).2 c = (prepChannel hd length c st.1).2 ∧
      ∀ j, j % 3 = c % 3 →
        (cs.foldl (prepChannelStep hd length) st).1 j = (prepChannel hd length c st.1).1 j := by
  intro cs
  induction cs with
  | nil => intro _ _ c hc; exact absurd hc (List.not_mem_nil c)
  | cons b cs ih =>
    intro hnd h3 c hc st
    rw [List.nodup_cons] at hnd
    rw [List.foldl_cons]
    rcases List.mem_cons.mp hc with hcb | hcs
    · subst hcb
      constructor
      · rw [prepFold_incs_untouched cs _ hnd.1]
        exact Function.update_same c _ _
      · intro j hj
        rw [prepFold_vals_untouched cs _ (fun d hd2 => ?_)]
        · exact rfl
        · -- d ∈ cs, d ≠ c, both < 3, so classes differ
          have hdc : d ≠ c := fun h => hnd.1 (h ▸ hd2)
          have hd3 : d < 3 := h3 d (List.mem_cons_of_mem c hd2)
          have hc3 : c < 3 := h3 c (List.mem_cons_self c cs)
          omega
    · have hbc : b ≠ c := fun h => hnd.1 (h ▸ hcs)
      have hb3 : b < 3 := h3 b (List.mem_cons_self b cs)
      have hc3 : c < 3 := h3 c (List.mem_cons_of_mem b hcs)
      have hagree : ∀ j, j % 3 = c % 3 →
          (prepChannelStep hd length st b).1 j = st.1 j := fun j hj =>
        prepChannel_untouched (by omega) st.1
      obtain ⟨hinc, hvals⟩ := ih hnd.2 (fun d hd2 => h3 d (List.mem_cons_of_mem b hd2))
        c hcs (prepChannelStep hd length st b)
      have hcongr := @prepChannel_congr hd length c _ _ hagree
      constructor
      · rw [hinc, hcongr.1]
      · intro j hj
        rw [hvals j hj, hcongr.2 j hj]

/-- `prepareVals` on channel `c`'s index class agrees with the per-channel
pass applied to the original buffer. -/
theorem prepareVals_vals_class {hd : Bool} {length ac c : Nat} (hac : ac ≤ 3)
    (hc : c < ac) (v : Vals) :
    ∀ j, j % 3 = c % 3 →
      (prepareVals hd length ac v).1 j = (prepChannel hd length c v).1 j := by
  intro j hj
  have h := (@prepFold_class hd length (List.range ac)
    (List.nodup_range ac) (fun d hd2 => by have := List.mem_range.mp hd2; omega)
    c (List.mem_range.mpr hc) (v, fun _ => false)).2 j hj
  rw [prepareVals_eq_fold]
  split
  · exact h
  · exact h

/-- The direction recorded by `prepareVals` for channel `c` is the one the
per-channel pass detects on the original buffer. -/
theorem prepareVals_incs_class {hd : Bool} {length ac c : Nat} (hac : ac ≤ 3)
    (hc : c < ac) (v : Vals) :
    (prepareVals hd length ac v).2 c = (prepChannel hd length c v).2 := by
  have h := (@prepFold_class hd length (List.range ac)
    (List.nodup_range ac) (fun d hd2 => by have := List.mem_range.mp hd2; omega)
    c (List.mem_range.mpr hc) (v, fun _ => false)).1
  rw [prepareVals_eq_fold]
  split
  · rename_i h1
    subst h1
    have hc0 : c = 0 := by omega
    subst hc0
    exact h
  · exact h

/-- Index classes of inactive channels are untouched by `prepareVals`. -/
theorem prepareVals_vals_untouched {hd : Bool} {length ac j : Nat} (hj : ac ≤ j % 3)
    (v : Vals) : (prepareVals hd length ac v).1 j = v j := by
  rw [prepareVals_eq_fold]
  have h := @prepFold_vals_untouched hd length j
    (List.range ac) (v, fun _ => false)
    (fun c hcm => by have := List.mem_range.mp hcm; omega)
  split
  · exact h
  · exact h

/-- Re-running `prepareVals` on its own output (with a possibly reduced
active-channel count) leaves the buffer unchanged. -/
theorem prepareVals_vals_idem {hd : Bool} {length ac2 ac1 : Nat} (h12 : ac2 ≤ ac1)
    (hac : ac1 ≤ 3) (v : Vals) :
    (prepareVals hd length ac2 ((prepareVals hd length ac1 v).1)).1
      = (prepareVals hd length ac1 v).1 := by
  funext j
  set w := (prepareVals hd length ac1 v).1 with hw
  by_cases hcls : j % 3 < ac2
  · have hj3 : j % 3 % 3 = j % 3 := Nat.mod_mod_of_dvd _ (dvd_refl 3)
    have hc3 : j % 3 < 3 := Nat.mod_lt j (by norm_num)
    have h2 := @prepareVals_vals_class hd length ac2 (j % 3)
      (le_trans h12 hac) hcls w j hj3.symm
    have h1 : ∀ i, i % 3 = j % 3 % 3 → w i = (prepChannel hd length (j % 3) v).1 i :=
      fun i hi => prepareVals_vals_class hac (lt_of_lt_of_le hcls h12) v i (by omega)
    have hcongr := @prepChannel_congr hd length (j % 3) _ _ h1
    rw [h2, hcongr.2 j hj3.symm, prepChannel_idem hc3 v]
    exact (h1 j hj3.symm).symm
  · exact prepareVals_vals_untouched (by omega) w

/-! ## `finalize` and the cache id -/

/-- The list of stored floats in buffer order, as hashed by `finalize`
(`md5_append` over all of `getValues()`). -/
def valsList (L : Lut1D) : List F := (List.range (numValues L)).map L.vals

/-- Modelled from the spec: `Array::adjustColorComponentNumber` collapses
the logical channel count to 1 when the three channels hold identical
values; the buffer itself is unchanged (a pure storage optimisation). -/
def channelsIdentical (L : Lut1D) : Bool :=
  (List.range L.length).all fun r =>
    feq (L.vals (3 * r)) (L.vals (3 * r + 1)) && feq (L.vals (3 * r)) (L.vals (3 * r + 2))

/-- Modelled from the spec: the channel-count normalisation step of
`finalize`. -/
def adjustColorComponentNumber (L : Lut1D) : Lut1D :=
  if channelsIdentical L then { L with nComps := 1 } else L

/-- `TransformDirectionToString`. -/
def dirName : TransformDirection → String
  | .forward => "forward"
  | .inverse => "inverse"

/-- Modelled from the spec: `InterpolationToString` (standard OCIO names). -/
def interpName : Interpolation → String
  | .default => "default"
  | .linear => "linear"
  | .nearest => "nearest"
  | .best => "best"
  | .cubic => "cubic"
  | .tetrahedral => "tetrahedral"
  | .unknown => "unknown"

/-- The anonymous-namespace `GetHueAdjustName` of the source. -/
def hueAdjustName : Lut1DHueAdjust → String
  | .dw3 => "dw3"
  | .none => "none"

/-- The flag-dependent tail of the cache id, as streamed by `finalize`:
direction name, interpolation name, `"half domain "` or
`"standard domain "`, hue-adjust name. -/
def cacheSuffix (d : TransformDirection) (i : Interpolation) (h : Bool)
    (u : Lut1DHueAdjust) : String :=
  dirName d ++ " " ++ interpName i ++ " " ++
    (if h then "half domain " else "standard domain ") ++ hueAdjustName u

/-- `Lut1DOpData::finalize`, parameterised by the content digest `md5hex`
(the MD5 and its `GetPrintableHash` hex encoding are external to this file;
the spec only requires a deterministic digest of the raw value bytes).  For
an inverse LUT the array is prepared first; then the channel count is
normalised, validation runs under the lock, and the cache id is the digest
followed by the direction name, interpolation name, `"half domain"` or
`"standard domain"`, and the hue-adjust name, single-space separated.
`m_invQuality` is not included. -/
def finalize (md5hex : List F → String) (L : Lut1D) : Except String Lut1D :=
  let L1 := if L.direction = .inverse then prepareArray L else L
  let L2 := adjustColorComponentNumber L1
  match validate L2 with
  | .error e => .error e
  | .ok () =>
    let cid := md5hex (valsList L2) ++ " " ++
      cacheSuffix L2.direction L2.interp L2.halfFlags.inputHalf L2.hueAdjust
    .ok { L2 with cacheID := cid }

/-- `Array::operator==` (external base): equal dimensions and values
(`std::vector<float>` equality, so IEEE `==` elementwise). -/
def arrayEq (A B : Lut1D) : Bool :=
  A.length == B.length && A.nComps == B.nComps &&
    ((List.range (numValues A)).all fun j => feq (A.vals j) (B.vals j))

/-- `Lut1DOpData::haveEqualBasics`: half flags, hue adjust and the array. -/
def haveEqualBasics (A B : Lut1D) : Bool :=
  A.halfFlags == B.halfFlags && A.hueAdjust == B.hueAdjust && arrayEq A B

/-- `Lut1DOpData::operator==`: base-class equality (metadata; modelled from
the spec), direction, concrete interpolation, then the basics.
`m_invQuality` is not included. -/
def lutEquals (A B : Lut1D) : Bool :=
  A.metadata == B.metadata && A.direction == B.direction &&
    getConcreteInterpolation A == getConcreteInterpolation B && haveEqualBasics A B

/-! ## Composition and the fast-inverse factory -/

/-- An entry of the evaluator chain (`OpRcPtrVec`): the composition code
only pushes 1D LUT evaluators, via
`CreateLut1DOp(ops, lut, TRANSFORM_DIR_FORWARD)`. -/
inductive Op where
  | lut1d : Lut1D → Op

/-- Modelled from the spec: `EvalTransform` (the external renderer) applies
an evaluator chain, in place, to a three-component float buffer.  Its
behaviour is kept abstract as a parameter of the composition functions. -/
abbrev EvalT := List Op → Vals → Vals

inductive ComposeMethod where
  | resampleNo | resampleBig | resampleHD
deriving DecidableEq

/-- `Lut1DOpData::ComposeVec`: throw on an empty chain, else resize the
array of `A` to 3 components (`numPixels` stays `A`'s length) and evaluate
the chain in place over it. -/
def ComposeVec (evalT : EvalT) (A : Lut1D) (B : List Op) : Except String Lut1D :=
  if B.isEmpty then .error "There is nothing to compose the 1D LUT with"
  else .ok { A with nComps := 3, vals := evalT B A.vals }

/-- The tail of `Lut1DOpData::Compose` after the domain decision: clone `B`
and push it onto the chain, run `ComposeVec`, combine `B`'s format metadata
into the result, and copy `B`'s hue adjust.  Returns the result and the
chain. -/
def composeTail (evalT : EvalT) (A B : Lut1D) (ops : List Op) :
    Except String (Lut1D × List Op) :=
  let bCloned := B
  let ops2 := ops ++ [Op.lut1d bCloned]
  match ComposeVec evalT A ops2 with
  | .error e => .error e
  | .ok A2 =>
    let A3 := { A2 with metadata := Metadata.combine A2.metadata B.metadata,
                        hueAdjust := B.hueAdjust }
    .ok (A3, ops2)

/-- `Lut1DOpData::Compose`: select `min_size` and `needHalfDomain` from the
method; `goodDomain = A half-domain OR (A length ≥ min_size AND NOT
needHalfDomain)`; `useOrigDomain = (method == RESAMPLE_NO)`.  When neither
holds, push the original `A` onto the (empty) chain and replace `A` by a
freshly constructed identity LUT of length `min_size` (half-domain iff
required), preserving `A`'s format metadata (the source's
`A->setInterpolation(A->getInterpolation())` is a self-assignment and is a
no-op).  Then run the common tail. -/
def Compose (evalT : EvalT) (A B : Lut1D) (compFlag : ComposeMethod) :
    Except String (Lut1D × List Op) :=
  let min_size : Nat := match compFlag with
    | .resampleNo => 0
    | .resampleBig => 65536
    | .resampleHD => 65536
  let needHalfDomain : Bool := match compFlag with
    | .resampleHD => true
    | _ => false
  let Asz := A.length
  let goodDomain := A.halfFlags.inputHalf || (decide (Asz ≥ min_size) && !needHalfDomain)
  let useOrigDomain : Bool := compFlag = ComposeMethod.resampleNo
  if !goodDomain && !useOrigDomain then
    match newLut1D (if needHalfDomain then LUT_INPUT_HALF_CODE else LUT_STANDARD)
        min_size with
    | .error e => .error e
    | .ok Anew =>
      composeTail evalT { Anew with metadata := A.metadata } B [Op.lut1d A]
  else
    composeTail evalT A B []

/-- Modelled from the spec: `GetBitDepthMaxValue` for the integer depths. -/
def bitDepthMaxValue : BitDepth → Nat
  | .uint8 => 255
  | .uint10 => 1023
  | .uint12 => 4095
  | .uint14 => 16383
  | .uint16 => 65535
  | .uint32 => 4294967295
  | _ => 0

/-- Modelled from the spec: `IsFloatBitDepth`. -/
def isFloatBitDepth : BitDepth → Bool
  | .f16 => true
  | .f32 => true
  | _ => false

/-- `Lut1DOpData::GetLutIdealSize(BitDepth)`: `max_value + 1` for integer
depths, 65536 for float depths, failure for UNKNOWN and UINT32. -/
def GetLutIdealSize (incomingBitDepth : BitDepth) : Except String Nat :=
  match incomingBitDepth with
  | .uint8 | .uint10 | .uint12 | .uint14 | .uint16 =>
    .ok (bitDepthMaxValue incomingBitDepth + 1)
  | .f16 | .f32 => .ok 65536
  | .uint32 | .unknown => .error "Bit-depth is not supported"

/-- `Lut1DOpData::GetLutIdealSize(BitDepth, HalfFlags)`: 65536 when the
half-domain flag is set, else defer to the single-argument form. -/
def GetLutIdealSizeHF (inputBitDepth : BitDepth) (halfFlags : HalfFlags) :
    Except String Nat :=
  if halfFlags.inputHalf then .ok 65536 else GetLutIdealSize inputBitDepth

/-- `Lut1DOpData::MakeLookupDomain`: half domain iff the incoming depth is
float, ideal size for that domain, freshly filled identity LUT. -/
def MakeLookupDomain (incomingDepth : BitDepth) : Except String Lut1D := do
  let domainType := if isFloatBitDepth incomingDepth then LUT_INPUT_HALF_CODE
    else LUT_STANDARD
  let idealSize ← GetLutIdealSizeHF incomingDepth domainType
  newLut1D domainType idealSize

/-- `Lut1DOpData::MakeFastLut1DFromInverse`: reject non-inverse LUTs; select
the depth by the heuristic (start from the file output bit depth;
UNKNOWN/UINT14/UINT32 ↦ UINT12; for GPU, subsample to UINT12 unless UINT16;
F16 whenever the LUT has extended range); make the lookup domain; compose it
with the source with RESAMPLE_NO under the `LutStyleGuard` (modelled from
the spec: during the compose the source is observed with
`invQuality = EXACT`, restored on exit). -/
def MakeFastLut1DFromInverse (evalT : EvalT) (lut : Lut1D) (forGPU : Bool) :
    Except String Lut1D :=
  if lut.direction ≠ .inverse then
    .error "MakeFastLut1DFromInverse expects an inverse 1D LUT"
  else do
    let depth0 := lut.fileOutputBitDepth
    let depth1 := if depth0 = .unknown ∨ depth0 = .uint14 ∨ depth0 = .uint32 then
      BitDepth.uint12 else depth0
    let depth2 := if forGPU && !(depth1 == BitDepth.uint16) then BitDepth.uint12
      else depth1
    let depth3 := if hasExtendedRange lut then BitDepth.f16 else depth2
    let newDomainLut ← MakeLookupDomain depth3
    let guarded := { lut with invQuality := .exact }
    let r ← Compose evalT newDomainLut guarded .resampleNo
    pure r.1

/-! ## The claimed and the actual half-domain flattening ranges (C1) -/

/-- The row list `first, first+1, …, last`. -/
def rowSeq (first last : Nat) : List Nat :=
  (List.range (last + 1 - first)).map (first + ·)

/-- The half-domain flattening pass as the specification words it (claim
C1): for every active channel `c`, walk the positive rows 1 … 31744 (the +∞
row), clamping direction violations to the previous kept sample, seeded with
the value at row 0; then the negative rows 32768 … 64512 (the −∞ row) with
the opposite direction, seeded with the value at row 0; NaN rows untouched;
detection as in the code (rows 0 and 15360). -/
def claimedPrepChannelHalf (c : Nat) (v : Vals) : Vals × Bool :=
  let inc := flt (v c) (v (46080 + c))
  let p := flattenGo inc (v, v c) ((rowSeq 1 31744).map fun r => 3 * r + c)
  let q := flattenGo (!inc) (p.1, p.1 c) ((rowSeq 32768 64512).map fun r => 3 * r + c)
  (q.1, inc)

/-- The half-domain flattening pass as the code behaves (amended claim C1):
the loop bounds `31744*3` and `64512*3` are not channel-adjusted, so only
channel 0's walks reach the ±∞ rows 31744 and 64512; the walks of channels
1 and 2 stop at rows 31743 and 64511. -/
def amendedPrepChannelHalf (c : Nat) (v : Vals) : Vals × Bool :=
  let posLast := if c = 0 then 31744 else 31743
  let negLast := if c = 0 then 64512 else 64511
  let inc := flt (v c) (v (46080 + c))
  let p := flattenGo inc (v, v c) ((rowSeq 1 posLast).map fun r => 3 * r + c)
  let q := flattenGo (!inc) (p.1, p.1 c) ((rowSeq 32768 negLast).map fun r => 3 * r + c)
  (q.1, inc)

/-- The channel loop of `prepareArray` over the claimed per-channel pass. -/
def claimedPrepareValsHalf (activeChannels : Nat) (v : Vals) :
    Vals × (Nat → Bool) :=
  let r := (List.range activeChannels).foldl
    (fun st c =>
      let r := claimedPrepChannelHalf c st.1
      (r.1, Function.update st.2 c r.2))
    (v, fun _ => false)
  if activeChannels = 1 then (r.1, fun _ => r.2 0) else r

/-- The channel loop of `prepareArray` over the amended per-channel pass. -/
def amendedPrepareValsHalf (activeChannels : Nat) (v : Vals) :
    Vals × (Nat → Bool) :=
  let r := (List.range activeChannels).foldl
    (fun st c =>
      let r := amendedPrepChannelHalf c st.1
      (r.1, Function.update st.2 c r.2))
    (v, fun _ => false)
  if activeChannels = 1 then (r.1, fun _ => r.2 0) else r

theorem idxSeq_eq_rowSeq_pos {c : Nat} (hc : c < 3) :
    idxSeq (c + 3) 3 95232
      = (rowSeq 1 (if c = 0 then 31744 else 31743)).map fun r => 3 * r + c := by
  unfold idxSeq rowSeq
  rw [if_pos (by omega), List.map_map]
  have hn : (95232 - (c + 3)) / 3 + 1 = (if c = 0 then 31744 else 31743) + 1 - 1 := by
    interval_cases c <;> norm_num
  rw [hn]
  exact List.map_congr_left fun k _ => by simp only [Function.comp_apply]; omega

theorem idxSeq_eq_rowSeq_neg {c : Nat} (hc : c < 3) :
    idxSeq (98304 + c) 3 193536
      = (rowSeq 32768 (if c = 0 then 64512 else 64511)).map fun r => 3 * r + c := by
  unfold idxSeq rowSeq
  rw [if_pos (by omega), List.map_map]
  have hn : (193536 - (98304 + c)) / 3 + 1
      = (if c = 0 then 64512 else 64511) + 1 - 32768 := by
    interval_cases c <;> norm_num
  rw [hn]
  exact List.map_congr_left fun k _ => by simp only [Function.comp_apply]; omega

/-- The code's half-domain per-channel pass is the amended one. -/
theorem prepChannelHalf_eq_amended {c : Nat} (hc : c < 3) (v : Vals) :
    prepChannelHalf c v = amendedPrepChannelHalf c v := by
  unfold prepChannelHalf amendedPrepChannelHalf
  rw [idxSeq_eq_rowSeq_pos hc, idxSeq_eq_rowSeq_neg hc]

theorem foldl_congr_mem {α β : Type} :
    ∀ (l : List α) (f g : β → α → β) (b : β),
      (∀ a ∈ l, ∀ x, f x a = g x a) → l.foldl f b = l.foldl g b := by
  intro l
  induction l with
  | nil => intro f g b _; rfl
  | cons a l ih =>
    intro f g b h
    rw [List.foldl_cons, List.foldl_cons, h a (List.mem_cons_self a l)]
    exact ih f g _ (fun x hx => h x (List.mem_cons_of_mem a hx))

/-! ## Claim theorems -/

/-- C9: sample-array construction `new(half_flags, length)` fails for every
`length < 2` and every `length > 1,048,576`, and succeeds — immediately
filled to identity — for every length in between, the boundary lengths 2
and 1,048,576 included. -/
theorem C9_array_construction_bounds (inputHalf : Bool) (n : Nat) :
    (n < 2 ∨ n > 1048576 → ∃ e, newLutArray inputHalf n = .error e) ∧
    (2 ≤ n → n ≤ 1048576 →
      newLutArray inputHalf n = .ok ⟨n, 3, fillVals inputHalf n⟩) := by
  constructor
  · intro h
    unfold newLutArray
    rcases h with h | h
    · exact ⟨_, by rw [if_pos h]⟩
    · exact ⟨_, by rw [if_neg (by omega), if_pos (by norm_num; omega)]⟩
  · intro h1 h2
    unfold newLutArray
    rw [if_neg (by omega), if_neg (by norm_num; omega)]

/-- C9 witness: lengths 1 and 1,048,577 fail; 2 and 1,048,576 succeed. -/
theorem C9_array_construction_bounds_witness :
    (∃ e, newLutArray false 1 = .error e) ∧
    (∃ e, newLutArray false 1048577 = .error e) ∧
    newLutArray false 2 = .ok ⟨2, 3, fillVals false 2⟩ ∧
    newLutArray false 1048576 = .ok ⟨1048576, 3, fillVals false 1048576⟩ :=
  ⟨(C9_array_construction_bounds false 1).1 (Or.inl (by norm_num)),
   (C9_array_construction_bounds false 1048577).1 (Or.inr (by norm_num)),
   (C9_array_construction_bounds false 2).2 (by norm_num) (by norm_num),
   (C9_array_construction_bounds false 1048576).2 (by norm_num) (by norm_num)⟩

theorem interpIsValid_eq_false_iff (i : Interpolation) :
    interpIsValid i = false ↔
      i = .cubic ∨ i = .tetrahedral ∨ i = .unknown := by
  cases i <;> simp [interpIsValid]

/-- C8: `validate()` fails if and only if the interpolation is CUBIC,
TETRAHEDRAL or UNKNOWN (DEFAULT, LINEAR, NEAREST and BEST are accepted), or
the value array fails its own structural check, or INPUT_HALF_CODE is set
and the length is not 65,536. -/
theorem C8_validate_iff (L : Lut1D) :
    (∃ e, validate L = .error e) ↔
      (L.interp = .cubic ∨ L.interp = .tetrahedral ∨ L.interp = .unknown) ∨
      L.arrayOk = false ∨
      (L.halfFlags.inputHalf = true ∧ L.length ≠ 65536) := by
  unfold validate
  split_ifs with h1 h2 h3
  · simp only [Bool.not_eq_true', ← interpIsValid_eq_false_iff] at h1 ⊢
    exact ⟨fun _ => Or.inl h1, fun _ => ⟨_, rfl⟩⟩
  · simp only [Bool.not_eq_true'] at h2
    exact ⟨fun _ => Or.inr (Or.inl h2), fun _ => ⟨_, rfl⟩⟩
  · rw [Bool.and_eq_true] at h3
    refine ⟨fun _ => Or.inr (Or.inr ⟨h3.1, ?_⟩), fun _ => ⟨_, rfl⟩⟩
    have := h3.2
    simpa using this
  · constructor
    · rintro ⟨e, he⟩
      exact absurd he (by simp)
    · intro h
      exfalso
      rcases h with h | h | h
      · rw [← interpIsValid_eq_false_iff] at h
        simp [h] at h1
      · simp [h] at h2
      · rcases h with ⟨ha, hb⟩
        apply h3
        rw [ha]
        simpa using hb

/-- C8 witness: a LUT with CUBIC interpolation fails validation; one with
LINEAR interpolation, a passing array check and a standard domain
validates. -/
theorem C8_validate_iff_witness :
    (∃ e, validate ⟨2, 3, fun _ => F.fin 0, LUT_STANDARD, .cubic, .none, .forward,
      .fast, .unknown, [], "", true, fun _ => false⟩ = .error e) ∧
    ¬(∃ e, validate ⟨2, 3, fun _ => F.fin 0, LUT_STANDARD, .linear, .none, .forward,
      .fast, .unknown, [], "", true, fun _ => false⟩ = .error e) := by
  constructor
  · exact (C8_validate_iff _).mpr (Or.inl (Or.inl rfl))
  · intro h
    have := (C8_validate_iff _).mp h
    simp [LUT_STANDARD] at this

theorem hasExtendedRange_of_witness {L : Lut1D} {j : Nat} (hj : j < numValues L)
    (hbad : extRangeBad (L.vals j) = true) : hasExtendedRange L = true := by
  unfold hasExtendedRange
  rw [List.any_eq_true]
  exact ⟨j, List.mem_range.mpr hj, hbad⟩

theorem hasExtendedRange_eq_false {L : Lut1D}
    (h : ∀ j < numValues L, extRangeBad (L.vals j) = false) :
    hasExtendedRange L = false := by
  unfold hasExtendedRange
  rw [List.any_eq_false]
  intro j hj
  rw [h j (List.mem_range.mp hj)]
  simp

theorem fillStd_in_range {n j : Nat} (h2 : 2 ≤ n) (hj : j < n * 3) :
    extRangeBad (fillStd n j) = false := by
  have hpos : (0 : ℚ) < (n : ℚ) - 1 := by
    have : (2 : ℚ) ≤ (n : ℚ) := by exact_mod_cast h2
    linarith
  have hle : (j / 3 : ℕ) ≤ n - 1 := by omega
  have hcast : ((j / 3 : ℕ) : ℚ) ≤ (n : ℚ) - 1 := by
    have h := (Nat.cast_le (α := ℚ)).mpr hle
    rw [Nat.cast_sub (by omega)] at h
    simpa using h
  have hv0 : (0 : ℚ) ≤ ((j / 3 : ℕ) : ℚ) * (1 / ((n : ℚ) - 1)) := by positivity
  have hv1 : ((j / 3 : ℕ) : ℚ) * (1 / ((n : ℚ) - 1)) ≤ 1 := by
    rw [mul_one_div, div_le_one hpos]
    exact hcast
  unfold fillStd extRangeBad
  simp only [Bool.or_eq_false_iff, decide_eq_false_iff_not, not_lt]
  constructor
  · linarith
  · linarith

/-- C2 counterexample: `has_extended_range()` is true, not false, for the
freshly constructed half-domain identity LUT `new(INPUT_HALF_CODE, 65536)` —
its row for half bit-pattern 16384 stores the value 2.0, which lies outside
`[0 - 1e-5, 1 + 1e-5]`. -/
theorem C2_counterexample :
    (newLut1D LUT_INPUT_HALF_CODE 65536).map hasExtendedRange = .ok true := by
  unfold newLut1D newLutArray
  rw [if_neg (by norm_num), if_neg (by norm_num)]
  simp only [Except.map]
  rw [Except.ok.injEq]
  apply hasExtendedRange_of_witness (j := 49152)
  · norm_num [numValues]
  · show extRangeBad (fillVals LUT_INPUT_HALF_CODE.inputHalf 65536 49152) = true
    have : LUT_INPUT_HALF_CODE.inputHalf = true := rfl
    rw [this]
    show extRangeBad (halfToVal (49152 / 3)) = true
    norm_num [halfToVal, extRangeBad]

/-- C2 (amended): `has_extended_range()` is false for every freshly
constructed standard-domain identity LUT `new(STANDARD, n)` with valid `n`;
for the freshly constructed half-domain identity LUT
`new(INPUT_HALF_CODE, 65536)` it returns true, since the half domain stores
values outside `[0,1]` (e.g. 2.0 at bit-pattern 16384). -/
theorem C2_amended_extended_range (n : Nat) (h2 : 2 ≤ n) (hmax : n ≤ 1048576) :
    (newLut1D LUT_STANDARD n).map hasExtendedRange = .ok false ∧
    (newLut1D LUT_INPUT_HALF_CODE 65536).map hasExtendedRange = .ok true := by
  constructor
  · unfold newLut1D newLutArray
    rw [if_neg (by omega), if_neg (by norm_num; omega)]
    simp only [Except.map]
    rw [Except.ok.injEq]
    apply hasExtendedRange_eq_false
    intro j hj
    show extRangeBad (fillVals LUT_STANDARD.inputHalf n j) = false
    have hf : LUT_STANDARD.inputHalf = false := rfl
    rw [hf]
    show extRangeBad (fillStd n j) = false
    exact fillStd_in_range h2 (by simpa [numValues] using hj)
  · unfold newLut1D newLutArray
    rw [if_neg (by norm_num), if_neg (by norm_num)]
    simp only [Except.map]
    rw [Except.ok.injEq]
    apply hasExtendedRange_of_witness (j := 49152)
    · norm_num [numValues]
    · show extRangeBad (fillVals LUT_INPUT_HALF_CODE.inputHalf 65536 49152) = true
      have hf : LUT_INPUT_HALF_CODE.inputHalf = true := rfl
      rw [hf]
      show extRangeBad (halfToVal (49152 / 3)) = true
      norm_num [halfToVal, extRangeBad]

/-- C2 witness: the amended statement at `n = 2`. -/
theorem C2_amended_extended_range_witness :
    (newLut1D LUT_STANDARD 2).map hasExtendedRange = .ok false ∧
    (newLut1D LUT_INPUT_HALF_CODE 65536).map hasExtendedRange = .ok true :=
  C2_amended_extended_range 2 (by norm_num) (by norm_num)

/-- Adjacent-pair form of the walk's chain guarantee, for a walk over
`idxSeq a 3 b`. -/
theorem flattenGo_adjacent {inc : Bool} {v : Vals} {p : F} {a b : Nat}
    (hab : a ≤ b) (hp : isNan p = false)
    (hnn : inc = false → ∀ i ∈ idxSeq a 3 b, isNan (v i) = false) :
    dirOk inc p ((flattenGo inc (v, p) (idxSeq a 3 b)).1 a) ∧
    ∀ k, a + 3 * (k + 1) ≤ b →
      dirOk inc ((flattenGo inc (v, p) (idxSeq a 3 b)).1 (a + 3 * k))
        ((flattenGo inc (v, p) (idxSeq a 3 b)).1 (a + 3 * (k + 1))) := by
  have hch := flattenGo_chain (idxSeq a 3 b) inc v p (idxSeq3_nodup a b) hp hnn
  set w := (flattenGo inc (v, p) (idxSeq a 3 b)).1 with hw
  have hexp : (idxSeq a 3 b).map w = (List.range ((b - a) / 3 + 1)).map fun k => w (a + 3 * k) := by
    unfold idxSeq
    rw [if_pos hab, List.map_map]
    rfl
  rw [hexp] at hch
  rw [List.chain_iff_get] at hch
  constructor
  · have h0 := hch.1 (by simp)
    simpa using h0
  · intro k hk
    have hkn : k < ((b - a) / 3 + 1) - 1 := by
      have : k + 1 ≤ (b - a) / 3 := by
        rw [Nat.le_div_iff_mul_le (by norm_num)]
        omega
      omega
    have h := hch.2 k (by simpa using hkn)
    simpa using h

/-- A length-4 standard-domain buffer with a stored NaN at row 1 and a
reversal at row 2: per channel the rows hold 5, NaN, 7, 3. -/
def cexVals3 : Vals := fun j =>
  if j < 3 then F.fin 5 else if j < 6 then F.nan else if j < 9 then F.fin 7 else F.fin 3

def cexLut3 : Lut1D :=
  ⟨4, 3, cexVals3, LUT_STANDARD, .default, .none, .inverse, .fast, .unknown,
   [], "", true, fun _ => false⟩

/-- C3 counterexample: preparing this INVERSE standard-domain LUT detects
channel 0 as decreasing (5 at row 0 vs 3 at row 3), yet afterwards row 0
holds 5.0 and row 2 holds 7.0 — both non-NaN domain rows — so the channel
is not weakly monotonic in its detected direction: the stored NaN at row 1
resets the walk's previous value, and the reversal at row 2 survives. -/
theorem C3_counterexample :
    (prepareArray cexLut3).incs 0 = false ∧
    (prepareArray cexLut3).vals 0 = F.fin 5 ∧
    (prepareArray cexLut3).vals 6 = F.fin 7 ∧
    fle ((prepareArray cexLut3).vals 6) ((prepareArray cexLut3).vals 0) = false := by
  decide

/-- C3 (amended): after preparation of an INVERSE-direction LUT, every
active channel whose walked stored values are non-NaN is weakly monotonic
in its detected direction over the rows its flattening walk visits: all
rows for a standard-domain LUT; for a half-domain LUT the positive rows
0 … 31744 for channel 0 and 0 … 31743 for channels 1 and 2, in the detected
direction, and the negative rows 32768 … 64512 (channel 0) or 32768 … 64511
(channels 1 and 2) in the opposite direction. -/
theorem C3_amended_monotonic (L : Lut1D) (c : Nat) (hc : c < L.nComps)
    (hac : L.nComps ≤ 3) :
    (L.halfFlags.inputHalf = false →
      (∀ r, r < L.length → isNan (L.vals (3 * r + c)) = false) →
      ∀ r, r + 1 < L.length →
        dirOk ((prepareArray L).incs c)
          ((prepareArray L).vals (3 * r + c))
          ((prepareArray L).vals (3 * (r + 1) + c))) ∧
    (L.halfFlags.inputHalf = true →
      (∀ r, r ≤ 31744 ∨ (32768 ≤ r ∧ r ≤ 64512) →
        isNan (L.vals (3 * r + c)) = false) →
      (∀ r, r + 1 ≤ (if c = 0 then 31744 else 31743) →
        dirOk ((prepareArray L).incs c)
          ((prepareArray L).vals (3 * r + c))
          ((prepareArray L).vals (3 * (r + 1) + c))) ∧
      (∀ r, 32768 ≤ r → r + 1 ≤ (if c = 0 then 64512 else 64511) →
        dirOk (!(prepareArray L).incs c)
          ((prepareArray L).vals (3 * r + c))
          ((prepareArray L).vals (3 * (r + 1) + c)))) := by
  have hc3 : c < 3 := lt_of_lt_of_le hc hac
  have hbrv : ∀ r : Nat, (prepareArray L).vals (3 * r + c)
      = (prepChannel L.halfFlags.inputHalf L.length c L.vals).1 (3 * r + c) :=
    fun r => prepareVals_vals_class hac hc L.vals _ (by omega)
  have hbri : (prepareArray L).incs c
      = (prepChannel L.halfFlags.inputHalf L.length c L.vals).2 :=
    prepareVals_incs_class hac hc L.vals
  constructor
  · -- standard domain
    intro hhf hnn r hr
    rw [hbrv, hbrv, hbri, hhf]
    have hpc : prepChannel false L.length c L.vals = prepChannelStd L.length c L.vals := rfl
    rw [hpc]
    unfold prepChannelStd
    dsimp only
    have hlen2 : 2 ≤ L.length := by omega
    have hab : c + 3 ≤ L.length * 3 - 1 := by omega
    have hseedn : isNan (L.vals c) = false := by
      have := hnn 0 (by omega)
      simpa using this
    have hadj := @flattenGo_adjacent (flt (L.vals c) (L.vals ((L.length - 1) * 3 + c)))
      L.vals (L.vals c) (c + 3) (L.length * 3 - 1) hab hseedn
      (fun _ i hi => by
        obtain ⟨-, k, hk, rfl⟩ := mem_idxSeq hi
        have hub := mem_idxSeq_le hi
        have he : c + 3 + 3 * k = 3 * (k + 1) + c := by omega
        rw [he]
        exact hnn (k + 1) (by omega))
    rcases Nat.eq_zero_or_pos r with hr0 | hrpos
    · subst hr0
      have huc : (flattenGo (flt (L.vals c) (L.vals ((L.length - 1) * 3 + c)))
          (L.vals, L.vals c) (idxSeq (c + 3) 3 (L.length * 3 - 1))).1 c = L.vals c :=
        flattenGo_untouched _ _ _ (fun hm => by have := mem_idxSeq_ge hm; omega)
      have e0 : 3 * 0 + c = c := by omega
      have e1 : 3 * (0 + 1) + c = c + 3 := by omega
      rw [e0, e1, huc]
      exact hadj.1
    · have e0 : 3 * r + c = (c + 3) + 3 * (r - 1) := by omega
      have e1 : 3 * (r + 1) + c = (c + 3) + 3 * ((r - 1) + 1) := by omega
      rw [e0, e1]
      exact hadj.2 (r - 1) (by omega)
  · -- half domain
    intro hhf hnn
    have hpc : prepChannel true L.length c L.vals = prepChannelHalf c L.vals := rfl
    rw [hbri, hhf, hpc]
    unfold prepChannelHalf
    dsimp only
    set inc := flt (L.vals c) (L.vals (46080 + c)) with hinc
    set p1 := (flattenGo inc (L.vals, L.vals c) (idxSeq (c + 3) 3 95232)).1 with hp1
    set q1 := (flattenGo (!inc) (p1, p1 c) (idxSeq (98304 + c) 3 193536)).1 with hq1
    have hvq : ∀ r : Nat, (prepareArray L).vals (3 * r + c) = q1 (3 * r + c) := by
      intro r
      rw [hbrv r, hhf, hpc]
      rfl
    have hqp : ∀ j, j < 98304 → q1 j = p1 j := fun j hj =>
      flattenGo_untouched _ _ _ (fun hm => by have := mem_idxSeq_ge hm; omega)
    have hpv : ∀ j, j < c + 3 → p1 j = L.vals j := fun j hj =>
      flattenGo_untouched _ _ _ (fun hm => by have := mem_idxSeq_ge hm; omega)
    have hpvhi : ∀ j, 95233 ≤ j → p1 j = L.vals j := fun j hj =>
      flattenGo_untouched _ _ _ (fun hm => by have := mem_idxSeq_le hm; omega)
    have hseedn : isNan (L.vals c) = false := by
      have := hnn 0 (Or.inl (by omega))
      simpa using this
    constructor
    · -- positive rows, detected direction
      intro r hr
      have hrb : c + 3 + 3 * r ≤ 95232 := by
        by_cases hc0 : c = 0
        · have hr2 : r + 1 ≤ 31744 := by simpa [hc0] using hr
          omega
        · have hr2 : r + 1 ≤ 31743 := by simpa [hc0] using hr
          omega
      have hadj := @flattenGo_adjacent inc L.vals (L.vals c)
        (c + 3) 95232 (by omega) hseedn
        (fun _ i hi => by
          obtain ⟨-, k, hk, rfl⟩ := mem_idxSeq hi
          have hub := mem_idxSeq_le hi
          have he : c + 3 + 3 * k = 3 * (k + 1) + c := by omega
          rw [he]
          exact hnn (k + 1) (Or.inl (by omega)))
      rw [hvq, hvq, hqp _ (by omega), hqp _ (by omega)]
      rcases Nat.eq_zero_or_pos r with hr0 | hrpos
      · subst hr0
        have huc : p1 c = L.vals c := hpv c (by omega)
        have e0 : 3 * 0 + c = c := by omega
        have e1 : 3 * (0 + 1) + c = c + 3 := by omega
        rw [e0, e1, huc]
        exact hadj.1
      · have e0 : 3 * r + c = (c + 3) + 3 * (r - 1) := by omega
        have e1 : 3 * (r + 1) + c = (c + 3) + 3 * ((r - 1) + 1) := by omega
        rw [e0, e1]
        exact hadj.2 (r - 1) (by omega)
    · -- negative rows, opposite direction
      intro r hr32 hr
      have hrb : 98304 + c + 3 * (r - 32768 + 1) ≤ 193536 := by
        by_cases hc0 : c = 0
        · have hr2 : r + 1 ≤ 64512 := by simpa [hc0] using hr
          omega
        · have hr2 : r + 1 ≤ 64511 := by simpa [hc0] using hr
          omega
      have hseedn2 : isNan (p1 c) = false := by rw [hpv c (by omega)]; exact hseedn
      have hadj := @flattenGo_adjacent (!inc) p1 (p1 c)
        (98304 + c) 193536 (by omega) hseedn2
        (fun _ i hi => by
          obtain ⟨-, k, hk, rfl⟩ := mem_idxSeq hi
          have hub := mem_idxSeq_le hi
          rw [hpvhi _ (by omega)]
          have he : 98304 + c + 3 * k = 3 * (32768 + k) + c := by omega
          rw [he]
          exact hnn (32768 + k) (Or.inr (by omega)))
      rw [hvq, hvq]
      have e0 : 3 * r + c = (98304 + c) + 3 * (r - 32768) := by omega
      have e1 : 3 * (r + 1) + c = (98304 + c) + 3 * ((r - 32768) + 1) := by omega
      rw [e0, e1]
      exact hadj.2 (r - 32768) (by omega)

/-- A concrete increasing standard-domain inverse LUT of length 2 for the
C3 witness. -/
def wLut3 : Lut1D :=
  ⟨2, 3, fun j => if j < 3 then F.fin 0 else F.fin 1, LUT_STANDARD, .default, .none,
   .inverse, .fast, .unknown, [], "", true, fun _ => false⟩

/-- C3 witness: the amended statement applied to `wLut3`, channel 0, rows 0
and 1. -/
theorem C3_amended_monotonic_witness :
    dirOk ((prepareArray wLut3).incs 0)
      ((prepareArray wLut3).vals (3 * 0 + 0))
      ((prepareArray wLut3).vals (3 * (0 + 1) + 0)) :=
  (C3_amended_monotonic wLut3 0 (by norm_num [wLut3]) (by norm_num [wLut3])).1
    rfl (fun r hr => by
      have h2 : r < 2 := hr
      interval_cases r <;> decide) 0 (by norm_num [wLut3])

/-! ### Finalize idempotence (C7) -/

theorem channelsIdentical_congr {X Y : Lut1D} (hl : X.length = Y.length)
    (hv : X.vals = Y.vals) : channelsIdentical X = channelsIdentical Y := by
  unfold channelsIdentical
  rw [hl, hv]

theorem validate_congr {X Y : Lut1D} (hi : X.interp = Y.interp)
    (ha : X.arrayOk = Y.arrayOk) (hh : X.halfFlags = Y.halfFlags)
    (hl : X.length = Y.length) : validate X = validate Y := by
  unfold validate
  rw [hi, ha, hh, hl]

theorem valsList_congr {X Y : Lut1D} (hl : X.length = Y.length)
    (hv : X.vals = Y.vals) : valsList X = valsList Y := by
  unfold valsList numValues
  rw [hl, hv]


/-- C7: `finalize` is idempotent on an otherwise-unchanged LUT: whenever
`finalize` succeeds, a second `finalize` without intervening mutation also
succeeds and produces an equal `cache_id` (the second preparation pass
leaves the already-flattened buffer unchanged, even when the channel count
was collapsed in between). -/
theorem C7_finalize_idempotent (md5hex : List F → String) (L L1 : Lut1D)
    (hnc : L.nComps = 1 ∨ L.nComps = 3)
    (h1 : finalize md5hex L = .ok L1) :
    ∃ L2, finalize md5hex L1 = .ok L2 ∧ L2.cacheID = L1.cacheID := by
  unfold finalize at h1
  dsimp only at h1
  set A := if L.direction = .inverse then prepareArray L else L with hA
  set B := adjustColorComponentNumber A with hB
  cases hval : validate B with
  | error e =>
    rw [hval] at h1
    exact absurd h1 (by simp)
  | ok u =>
    cases u
    rw [hval] at h1
    simp only [Except.ok.injEq] at h1
    -- Field bookkeeping for the stages of the first pass.
    have hAfields : A.length = L.length ∧ A.nComps = L.nComps ∧
        A.halfFlags = L.halfFlags ∧ A.direction = L.direction ∧
        A.interp = L.interp ∧ A.arrayOk = L.arrayOk ∧
        A.hueAdjust = L.hueAdjust := by
      rw [hA]
      split
      · exact ⟨rfl, rfl, rfl, rfl, rfl, rfl, rfl⟩
      · exact ⟨rfl, rfl, rfl, rfl, rfl, rfl, rfl⟩
    have hBor : B = { A with nComps := 1 } ∨ B = A := by
      rw [hB]
      unfold adjustColorComponentNumber
      split
      · exact Or.inl rfl
      · exact Or.inr rfl
    have hBvals : B.vals = A.vals := by rcases hBor with h | h <;> rw [h]
    have hBfields : B.length = A.length ∧ B.halfFlags = A.halfFlags ∧
        B.direction = A.direction ∧ B.interp = A.interp ∧
        B.arrayOk = A.arrayOk ∧ B.hueAdjust = A.hueAdjust := by
      rcases hBor with h | h <;> rw [h] <;> exact ⟨rfl, rfl, rfl, rfl, rfl, rfl⟩
    have hBnc : B.nComps = 1 ∨ B.nComps = A.nComps := by
      rcases hBor with h | h <;> rw [h]
      · exact Or.inl rfl
      · exact Or.inr rfl
    subst h1
    -- The second pass.  Name its stages.
    set cid := md5hex (valsList B) ++ " " ++
      cacheSuffix B.direction B.interp B.halfFlags.inputHalf B.hueAdjust with hcid
    set L1' : Lut1D := { B with cacheID := cid } with hL1'
    set A2 := if L1'.direction = .inverse then prepareArray L1' else L1' with hA2
    have hA2fields : A2.length = B.length ∧ A2.nComps = B.nComps ∧
        A2.halfFlags = B.halfFlags ∧ A2.direction = B.direction ∧
        A2.interp = B.interp ∧ A2.arrayOk = B.arrayOk ∧
        A2.hueAdjust = B.hueAdjust := by
      rw [hA2]
      split
      · exact ⟨rfl, rfl, rfl, rfl, rfl, rfl, rfl⟩
      · exact ⟨rfl, rfl, rfl, rfl, rfl, rfl, rfl⟩
    -- The crux: the second preparation leaves the buffer unchanged.
    have hA2vals : A2.vals = B.vals := by
      rw [hA2]
      by_cases hd2 : L1'.direction = .inverse
      · rw [if_pos hd2]
        have hdL : L.direction = .inverse := by
          have h1' : L1'.direction = B.direction := rfl
          rw [h1', hBfields.2.2.1, hAfields.2.2.2.1] at hd2
          exact hd2
        have hAprep : A = prepareArray L := by rw [hA, if_pos hdL]
        have hAv : A.vals
            = (prepareVals L.halfFlags.inputHalf L.length L.nComps L.vals).1 := by
          rw [hAprep]; rfl
        have hle : B.nComps ≤ L.nComps := by
          rcases hBnc with h | h
          · rw [h]; omega
          · rw [h, hAfields.2.1]
        have hv2 : (prepareArray L1').vals
            = (prepareVals B.halfFlags.inputHalf B.length B.nComps B.vals).1 := rfl
        rw [hv2, hBvals, hAv, hBfields.2.1, hAfields.2.2.1, hBfields.1, hAfields.1]
        exact prepareVals_vals_idem hle (by omega) L.vals
      · rw [if_neg hd2]
    -- The second adjustment reproduces the first one's decision.
    set B2 := adjustColorComponentNumber A2 with hB2
    have hB2or : B2 = { A2 with nComps := 1 } ∨ B2 = A2 := by
      rw [hB2]
      unfold adjustColorComponentNumber
      split
      · exact Or.inl rfl
      · exact Or.inr rfl
    have hB2vals : B2.vals = B.vals := by
      rcases hB2or with h | h <;> rw [h] <;> exact hA2vals
    have hB2fields : B2.length = B.length ∧ B2.halfFlags = B.halfFlags ∧
        B2.direction = B.direction ∧ B2.interp = B.interp ∧
        B2.arrayOk = B.arrayOk ∧ B2.hueAdjust = B.hueAdjust := by
      rcases hB2or with h | h <;> rw [h] <;>
        exact ⟨hA2fields.1, hA2fields.2.2.1, hA2fields.2.2.2.1,
          hA2fields.2.2.2.2.1, hA2fields.2.2.2.2.2.1, hA2fields.2.2.2.2.2.2⟩
    have hval2 : validate B2 = .ok () := by
      rw [validate_congr hB2fields.2.2.2.1 hB2fields.2.2.2.2.1 hB2fields.2.1
        hB2fields.1]
      exact hval
    have hsuffix : cacheSuffix B2.direction B2.interp B2.halfFlags.inputHalf
        B2.hueAdjust
        = cacheSuffix B.direction B.interp B.halfFlags.inputHalf B.hueAdjust := by
      rw [hB2fields.2.2.1, hB2fields.2.2.2.1, hB2fields.2.1,
        hB2fields.2.2.2.2.2]
    have hlist : valsList B2 = valsList B := valsList_congr hB2fields.1 hB2vals
    refine ⟨{ B2 with cacheID := md5hex (valsList B2) ++ " " ++ cacheSuffix B2.direction B2.interp B2.halfFlags.inputHalf B2.hueAdjust }, ?_, ?_⟩
    · show finalize md5hex L1' = _
      unfold finalize
      dsimp only
      rw [← hA2, ← hB2]
      split
      · rename_i e he
        rw [hval2] at he
        exact absurd he (by simp)
      · rfl
    · show md5hex (valsList B2) ++ " " ++
        cacheSuffix B2.direction B2.interp B2.halfFlags.inputHalf B2.hueAdjust
        = L1'.cacheID
      rw [hlist, hsuffix]

/-- A concrete constant forward standard-domain LUT for the C7 witness. -/
def wLut7 : Lut1D :=
  ⟨2, 3, fun _ => F.fin 0, LUT_STANDARD, .default, .none, .forward, .fast, .unknown,
   [], "", true, fun _ => false⟩

/-- The result of the first `finalize` on `wLut7` with a constant digest. -/
def wLut7fin : Lut1D :=
  ⟨2, 1, fun _ => F.fin 0, LUT_STANDARD, .default, .none, .forward, .fast, .unknown,
   [], "d forward default standard domain none", true, fun _ => false⟩

/-- C7 witness: the idempotence statement applied to `wLut7` with a constant
digest function. -/
theorem C7_finalize_idempotent_witness :
    ∃ L2, finalize (fun _ => "d") wLut7fin = .ok L2 ∧
      L2.cacheID = wLut7fin.cacheID :=
  C7_finalize_idempotent (fun _ => "d") wLut7 wLut7fin (Or.inr rfl) rfl

/-! ### Cache-id structure and distinctness (C6, C10) -/

theorem adjust_invQ (L : Lut1D) (q : LutInversionQuality) :
    adjustColorComponentNumber { L with invQuality := q }
      = { adjustColorComponentNumber L with invQuality := q } := by
  unfold adjustColorComponentNumber
  have hcond : channelsIdentical { L with invQuality := q } = channelsIdentical L := rfl
  rw [hcond]
  by_cases h : channelsIdentical L = true
  · rw [if_pos h, if_pos h]
  · rw [if_neg h, if_neg h]

/-- `finalize` treats the inversion quality as inert: it is neither read nor
written. -/
theorem finalize_invQ (md5hex : List F → String) (L : Lut1D)
    (q : LutInversionQuality) :
    finalize md5hex { L with invQuality := q }
      = (finalize md5hex L).map fun X => { X with invQuality := q } := by
  unfold finalize
  dsimp only
  have hstage : (if ({ L with invQuality := q } : Lut1D).direction = .inverse
      then prepareArray { L with invQuality := q }
      else ({ L with invQuality := q } : Lut1D))
      = { (if L.direction = .inverse then prepareArray L else L) with
          invQuality := q } := by
    by_cases h : L.direction = .inverse
    · rw [if_pos h, if_pos h]
      rfl
    · rw [if_neg h, if_neg h]
  rw [hstage, adjust_invQ]
  set B := adjustColorComponentNumber
    (if L.direction = .inverse then prepareArray L else L) with hB
  have hvalq : validate { B with invQuality := q } = validate B :=
    validate_congr rfl rfl rfl rfl
  rw [hvalq]
  cases validate B
  · rfl
  · rfl

/-- The shape of the cache id written by a successful `finalize`. -/
theorem finalize_ok_cacheID {md5hex : List F → String} {L L1 : Lut1D}
    (h : finalize md5hex L = .ok L1) :
    L1.cacheID = md5hex (valsList L1) ++ " " ++
      cacheSuffix L1.direction L1.interp L1.halfFlags.inputHalf L1.hueAdjust := by
  unfold finalize at h
  dsimp only at h
  set B := adjustColorComponentNumber
    (if L.direction = .inverse then prepareArray L else L) with hB
  cases hval : validate B with
  | error e => rw [hval] at h; exact absurd h (by simp)
  | ok u =>
    cases u
    rw [hval] at h
    simp only [Except.ok.injEq] at h
    subst h
    rfl

/-- A successful `finalize` preserves the flag fields, the length, and (for
a forward LUT) the value buffer. -/
theorem finalize_ok_fields {md5hex : List F → String} {L L1 : Lut1D}
    (h : finalize md5hex L = .ok L1) :
    L1.direction = L.direction ∧ L1.interp = L.interp ∧
    L1.halfFlags = L.halfFlags ∧ L1.hueAdjust = L.hueAdjust ∧
    L1.length = L.length ∧ (L.direction = .forward → L1.vals = L.vals) := by
  unfold finalize at h
  dsimp only at h
  set A := if L.direction = .inverse then prepareArray L else L with hA
  set B := adjustColorComponentNumber A with hB
  cases hval : validate B with
  | error e => rw [hval] at h; exact absurd h (by simp)
  | ok u =>
    cases u
    rw [hval] at h
    simp only [Except.ok.injEq] at h
    subst h
    have hAfields : A.length = L.length ∧ A.halfFlags = L.halfFlags ∧
        A.direction = L.direction ∧ A.interp = L.interp ∧
        A.hueAdjust = L.hueAdjust := by
      rw [hA]
      split
      · exact ⟨rfl, rfl, rfl, rfl, rfl⟩
      · exact ⟨rfl, rfl, rfl, rfl, rfl⟩
    have hBor : B = { A with nComps := 1 } ∨ B = A := by
      rw [hB]
      unfold adjustColorComponentNumber
      split
      · exact Or.inl rfl
      · exact Or.inr rfl
    have hBfields : B.length = A.length ∧ B.halfFlags = A.halfFlags ∧
        B.direction = A.direction ∧ B.interp = A.interp ∧
        B.hueAdjust = A.hueAdjust ∧ B.vals = A.vals := by
      rcases hBor with hh | hh <;> rw [hh] <;> exact ⟨rfl, rfl, rfl, rfl, rfl, rfl⟩
    refine ⟨?_, ?_, ?_, ?_, ?_, ?_⟩
    · show B.direction = L.direction
      rw [hBfields.2.2.1, hAfields.2.2.1]
    · show B.interp = L.interp
      rw [hBfields.2.2.2.1, hAfields.2.2.2.1]
    · show B.halfFlags = L.halfFlags
      rw [hBfields.2.1, hAfields.2.1]
    · show B.hueAdjust = L.hueAdjust
      rw [hBfields.2.2.2.2.1, hAfields.2.2.2.2]
    · show B.length = L.length
      rw [hBfields.1, hAfields.1]
    · intro hfwd
      show B.vals = L.vals
      rw [hBfields.2.2.2.2.2, hA, if_neg (by rw [hfwd]; intro hx; cases hx)]

theorem string_append_left_cancel {a b c : String} (h : a ++ b = a ++ c) :
    b = c := by
  have hd := congrArg String.data h
  rw [String.data_append, String.data_append] at hd
  exact String.ext (List.append_cancel_left hd)

set_option maxHeartbeats 2000000 in
theorem cacheSuffix_inj {d1 d2 : TransformDirection} {i1 i2 : Interpolation}
    {h1 h2 : Bool} {u1 u2 : Lut1DHueAdjust}
    (he : cacheSuffix d1 i1 h1 u1 = cacheSuffix d2 i2 h2 u2) :
    d1 = d2 ∧ i1 = i2 ∧ h1 = h2 ∧ u1 = u2 := by
  revert he
  cases d1 <;> cases d2 <;> cases i1 <;> cases i2 <;> cases h1 <;> cases h2 <;>
    cases u1 <;> cases u2 <;> decide

/-- C6: after a successful `finalize`, the cache id is the digest of the raw
value buffer followed by the direction name, the interpolation name,
`"half domain"` or `"standard domain"`, and the hue-adjust name,
single-space separated; the inversion quality is not included (changing it
never changes a successful finalize's cache id); and two finalized LUTs with
bit-identical value buffers but different flags — direction, interpolation,
half-domain flag or hue adjust — have different cache ids. -/
theorem C6_cache_id (md5hex : List F → String) :
    (∀ L L1 : Lut1D, finalize md5hex L = .ok L1 →
      L1.cacheID = md5hex (valsList L1) ++ " " ++
        cacheSuffix L1.direction L1.interp L1.halfFlags.inputHalf L1.hueAdjust) ∧
    (∀ (L : Lut1D) (q : LutInversionQuality) (L1 L2 : Lut1D),
      finalize md5hex L = .ok L1 →
      finalize md5hex { L with invQuality := q } = .ok L2 →
      L1.cacheID = L2.cacheID) ∧
    (∀ L M L1 M1 : Lut1D, finalize md5hex L = .ok L1 →
      finalize md5hex M = .ok M1 → valsList L1 = valsList M1 →
      (L1.direction ≠ M1.direction ∨ L1.interp ≠ M1.interp ∨
       L1.halfFlags.inputHalf ≠ M1.halfFlags.inputHalf ∨
       L1.hueAdjust ≠ M1.hueAdjust) →
      L1.cacheID ≠ M1.cacheID) := by
  refine ⟨fun L L1 h => finalize_ok_cacheID h, ?_, ?_⟩
  · intro L q L1 L2 h1 h2
    rw [finalize_invQ, h1] at h2
    simp only [Except.map, Except.ok.injEq] at h2
    subst h2
    rfl
  · intro L M L1 M1 h1 h2 hvals hne heq
    have c1 := finalize_ok_cacheID h1
    have c2 := finalize_ok_cacheID h2
    rw [c1, c2, hvals] at heq
    have hsuf := string_append_left_cancel heq
    obtain ⟨hd, hi, hh, hu⟩ := cacheSuffix_inj hsuf
    rcases hne with h | h | h | h
    · exact h hd
    · exact h hi
    · exact h hh
    · exact h hu

/-- Concrete LUTs for the C6 witness: identical constant forward LUTs that
differ only in the hue-adjust mode. -/
def wLut6a : Lut1D :=
  ⟨2, 3, fun _ => F.fin 0, LUT_STANDARD, .default, .none, .forward, .fast, .unknown,
   [], "", true, fun _ => false⟩

def wLut6b : Lut1D :=
  ⟨2, 3, fun _ => F.fin 0, LUT_STANDARD, .default, .dw3, .forward, .fast, .unknown,
   [], "", true, fun _ => false⟩

def wLut6afin : Lut1D :=
  ⟨2, 1, fun _ => F.fin 0, LUT_STANDARD, .default, .none, .forward, .fast, .unknown,
   [], "d forward default standard domain none", true, fun _ => false⟩

def wLut6bfin : Lut1D :=
  ⟨2, 1, fun _ => F.fin 0, LUT_STANDARD, .default, .dw3, .forward, .fast, .unknown,
   [], "d forward default standard domain dw3", true, fun _ => false⟩

/-- C6 witness: the distinctness part applied to two concrete finalized LUTs
with bit-identical buffers that differ only in hue adjust. -/
theorem C6_cache_id_witness : wLut6afin.cacheID ≠ wLut6bfin.cacheID :=
  (C6_cache_id (fun _ => "d")).2.2 wLut6a wLut6b wLut6afin wLut6bfin rfl rfl rfl
    (Or.inr (Or.inr (Or.inr (by decide))))

/-- LUTs for C10: identical except for the stored interpolation. -/
def wLutN : Lut1D :=
  ⟨2, 3, fun _ => F.fin 0, LUT_STANDARD, .nearest, .none, .forward, .fast, .unknown,
   [], "", true, fun _ => false⟩

def wLutL : Lut1D :=
  ⟨2, 3, fun _ => F.fin 0, LUT_STANDARD, .linear, .none, .forward, .fast, .unknown,
   [], "", true, fun _ => false⟩

/-- C10: equality does not determine the cache id: `operator==` compares the
concrete interpolation, which is LINEAR for every LUT, so these two LUTs —
identical except that one stores NEAREST and the other LINEAR — compare
equal; yet after `finalize` their cache ids differ, because the stored
interpolation's name is streamed into the id. -/
theorem C10_equals_not_cache_id :
    (∀ L : Lut1D, getConcreteInterpolation L = .linear) ∧
    lutEquals wLutN wLutL = true ∧
    ∀ (md5hex : List F → String) (L1 L2 : Lut1D),
      finalize md5hex wLutN = .ok L1 → finalize md5hex wLutL = .ok L2 →
      L1.cacheID ≠ L2.cacheID := by
  refine ⟨fun _ => rfl, by decide, ?_⟩
  intro md5hex L1 L2 h1 h2 heq
  have f1 := finalize_ok_fields h1
  have f2 := finalize_ok_fields h2
  have c1 := finalize_ok_cacheID h1
  have c2 := finalize_ok_cacheID h2
  have hv : valsList L1 = valsList L2 := by
    unfold valsList numValues
    rw [f1.2.2.2.2.1, f2.2.2.2.2.1, f1.2.2.2.2.2 rfl, f2.2.2.2.2.2 rfl]
    rfl
  rw [c1, c2, hv] at heq
  have hsuf := string_append_left_cancel heq
  have hi := (cacheSuffix_inj hsuf).2.1
  rw [f1.2.1, f2.2.1] at hi
  exact absurd hi (by decide)

def wLutNfin : Lut1D :=
  ⟨2, 1, fun _ => F.fin 0, LUT_STANDARD, .nearest, .none, .forward, .fast, .unknown,
   [], "d forward nearest standard domain none", true, fun _ => false⟩

def wLutLfin : Lut1D :=
  ⟨2, 1, fun _ => F.fin 0, LUT_STANDARD, .linear, .none, .forward, .fast, .unknown,
   [], "d forward linear standard domain none", true, fun _ => false⟩

/-- C10 witness: the cache ids of the two finalized LUTs differ, with a
constant digest function. -/
theorem C10_equals_not_cache_id_witness : wLutNfin.cacheID ≠ wLutLfin.cacheID :=
  C10_equals_not_cache_id.2.2 (fun _ => "d") wLutNfin wLutLfin rfl rfl

/-! ### The claimed half-domain walk versus the code (C1) -/

theorem mem_rowSeq {a b r : Nat} (h : r ∈ rowSeq a b) : a ≤ r ∧ r ≤ b := by
  unfold rowSeq at h
  simp only [List.mem_map, List.mem_range] at h
  obtain ⟨k, hk, rfl⟩ := h
  omega

theorem rowSeq_snoc {a b : Nat} (hab : a ≤ b) (hb : 1 ≤ b) :
    rowSeq a b = rowSeq a (b - 1) ++ [b] := by
  unfold rowSeq
  have h1 : b + 1 - a = (b - a) + 1 := by omega
  have h2 : b - 1 + 1 - a = b - a := by omega
  rw [h1, h2, List.range_succ, List.map_append]
  congr 1
  simp only [List.map_cons, List.map_nil]
  congr 2
  omega

/-- The claimed per-channel pass only writes indices of its own channel
class. -/
theorem claimedPrepChannelHalf_untouched {c j : Nat} (h : j % 3 ≠ c % 3) (v : Vals) :
    (claimedPrepChannelHalf c v).1 j = v j := by
  unfold claimedPrepChannelHalf
  dsimp only
  rw [flattenGo_untouched _ _ _ (fun hm => ?_), flattenGo_untouched _ _ _ (fun hm => ?_)]
  · obtain ⟨r, -, rfl⟩ := List.mem_map.mp hm
    omega
  · obtain ⟨r, -, rfl⟩ := List.mem_map.mp hm
    omega

/-- The buffer refuting C1 as stated: zero everywhere on the half domain
except at channel 1's +∞ row 31744 (flat index `3*31744 + 1 = 95233`),
which stores 1. -/
def cexVals1 : Vals := fun j => if j = 95233 then F.fin 1 else F.fin 0

theorem cexVals1_ne {j : Nat} (h : j ≠ 95233) : cexVals1 j = F.fin 0 := by
  unfold cexVals1
  rw [if_neg h]


theorem flattenGo_append (inc : Bool) (st : Vals × F) (l1 l2 : List Nat) :
    flattenGo inc st (l1 ++ l2) = flattenGo inc (flattenGo inc st l1) l2 := by
  unfold flattenGo
  rw [List.foldl_append]

/-- Any buffer index untouched by every active channel's pass survives the
channel loop. -/
theorem prepFold_vals_pres {hd : Bool} {length j : Nat} :
    ∀ (cs : List Nat) (st : Vals × (Nat → Bool)),
      (∀ c ∈ cs, ∀ w : Vals, (prepChannel hd length c w).1 j = w j) →
      (cs.foldl (prepChannelStep hd length) st).1 j = st.1 j := by
  intro cs
  induction cs with
  | nil => intro st _; rfl
  | cons b cs ih =>
    intro st h
    rw [List.foldl_cons, ih _ (fun c hc => h c (List.mem_cons_of_mem b hc))]
    exact h b (List.mem_cons_self b cs) st.1

/-- The code's per-channel half-domain pass never writes the NaN rows
(31745 … 32767 and 64513 … 65535, flat indices 95235 … 98303 and
193539 …). -/
theorem prepChannelHalf_nanrows {c j : Nat}
    (hj : (95235 ≤ j ∧ j < 98304) ∨ 193539 ≤ j) (v : Vals) :
    (prepChannelHalf c v).1 j = v j := by
  unfold prepChannelHalf
  dsimp only
  rw [flattenGo_untouched _ _ _ (fun hm => by
        have h1 := mem_idxSeq_ge hm
        have h2 := mem_idxSeq_le hm
        omega),
      flattenGo_untouched _ _ _ (fun hm => by
        have h2 := mem_idxSeq_le hm
        omega)]

theorem mem_claimedList {a b c j : Nat}
    (h : j ∈ (rowSeq a b).map fun r => 3 * r + c) : j % 3 = c % 3 := by
  obtain ⟨r, -, rfl⟩ := List.mem_map.mp h
  omega

/-- The claimed per-channel pass only reads indices of its own channel
class. -/
theorem claimedPrepChannelHalf_congr {c : Nat} {v w : Vals}
    (hvw : ∀ j, j % 3 = c % 3 → v j = w j) :
    (claimedPrepChannelHalf c v).2 = (claimedPrepChannelHalf c w).2 ∧
    ∀ j, j % 3 = c % 3 →
      (claimedPrepChannelHalf c v).1 j = (claimedPrepChannelHalf c w).1 j := by
  have hlow : v c = w c := hvw c rfl
  have hhigh : v (46080 + c) = w (46080 + c) := hvw _ (by omega)
  unfold claimedPrepChannelHalf
  dsimp only
  rw [hlow, hhigh]
  have hpos := flattenGo_congr ((rowSeq 1 31744).map fun r => 3 * r + c)
    (flt (w c) (w (46080 + c))) v w (w c) hvw (fun j hj => mem_claimedList hj)
  have hseedc : (flattenGo (flt (w c) (w (46080 + c))) (v, w c)
        ((rowSeq 1 31744).map fun r => 3 * r + c)).1 c
      = (flattenGo (flt (w c) (w (46080 + c))) (w, w c)
        ((rowSeq 1 31744).map fun r => 3 * r + c)).1 c :=
    hpos.2 c rfl
  rw [hseedc]
  refine ⟨rfl, ?_⟩
  exact (flattenGo_congr _ _ _ _ _ hpos.2 (fun j hj => mem_claimedList hj)).2

theorem cexC1_inc : flt (cexVals1 1) (cexVals1 (46080 + 1)) = false := by
  rw [cexVals1_ne (by omega), cexVals1_ne (by omega)]
  rfl

theorem cexC1_pre : flattenGo false (cexVals1, F.fin 0)
    ((rowSeq 1 31743).map fun r => 3 * r + 1) = (cexVals1, F.fin 0) :=
  flattenGo_const _ _ _ (fun a ha => by
    obtain ⟨r, hr, rfl⟩ := List.mem_map.mp ha
    exact cexVals1_ne (by have := mem_rowSeq hr; omega))

theorem cexC1_last : flattenGo false (cexVals1, F.fin 0) [3 * 31744 + 1]
    = (Function.update cexVals1 (3 * 31744 + 1) (F.fin 0), F.fin 0) := by
  show flattenStep false (cexVals1, F.fin 0) (3 * 31744 + 1)
    = (Function.update cexVals1 (3 * 31744 + 1) (F.fin 0), F.fin 0)
  unfold flattenStep
  dsimp only
  have hv : cexVals1 (3 * 31744 + 1) = F.fin 1 := by
    show cexVals1 95233 = F.fin 1
    unfold cexVals1
    rw [if_pos rfl]
  rw [hv, if_pos (show (false != fgt (F.fin 1) (F.fin 0)) = true from by decide)]

theorem cexC1_upd : ∀ j : Nat, j ≠ 3 * 31744 + 1 →
    Function.update cexVals1 (3 * 31744 + 1) (F.fin 0) j = F.fin 0 := by
  intro j hj
  rw [Function.update_noteq hj]
  exact cexVals1_ne (by omega)

/-- The claimed positive walk of channel 1 on `cexVals1`: the prefix through
row 31743 sees only zeros, and the final step at the +∞ row clamps it. -/
theorem cexC1_mid : flattenGo false (cexVals1, F.fin 0)
    ((rowSeq 1 31744).map fun r => 3 * r + 1)
    = (Function.update cexVals1 (3 * 31744 + 1) (F.fin 0), F.fin 0) := by
  rw [show ((rowSeq 1 31744).map fun r => 3 * r + 1)
      = ((rowSeq 1 31743).map fun r => 3 * r + 1) ++ [3 * 31744 + 1] from by
    rw [rowSeq_snoc (by omega) (by omega), List.map_append]
    simp only [List.map_cons, List.map_nil]]
  rw [flattenGo_append, cexC1_pre, cexC1_last]

theorem cexC1_negw : flattenGo (!false)
    (Function.update cexVals1 (3 * 31744 + 1) (F.fin 0), F.fin 0)
    ((rowSeq 32768 64512).map fun r => 3 * r + 1)
    = (Function.update cexVals1 (3 * 31744 + 1) (F.fin 0), F.fin 0) :=
  flattenGo_const _ _ _ (fun a ha => by
    obtain ⟨r, hr, rfl⟩ := List.mem_map.mp ha
    exact cexC1_upd _ (by have := mem_rowSeq hr; omega))

/-- Channel 1's claimed pass on `cexVals1`: the channel is flat (detected
non-increasing) and the walk through the +∞ row clamps index 95233 to 0. -/
theorem cexC1_ch1 : claimedPrepChannelHalf 1 cexVals1
    = (Function.update cexVals1 (3 * 31744 + 1) (F.fin 0), false) := by
  unfold claimedPrepChannelHalf
  dsimp only
  rw [cexC1_inc, cexVals1_ne (show (1 : Nat) ≠ 95233 by omega)]
  rw [cexC1_mid]
  dsimp only
  rw [cexC1_upd 1 (by omega)]
  rw [cexC1_negw]

attribute [irreducible] claimedPrepChannelHalf

theorem claimedFold_vals_untouched {j : Nat} :
    ∀ (cs : List Nat) (st : Vals × (Nat → Bool)), (∀ c ∈ cs, j % 3 ≠ c % 3) →
      (cs.foldl (fun st c =>
          let r := claimedPrepChannelHalf c st.1
          (r.1, Function.update st.2 c r.2)) st).1 j = st.1 j := by
  intro cs
  induction cs with
  | nil => intro st _; rfl
  | cons b cs ih =>
    intro st hcs
    have h1 : (claimedPrepChannelHalf b st.1).1 j = st.1 j :=
      claimedPrepChannelHalf_untouched (hcs b (List.mem_cons_self b cs)) st.1
    rw [List.foldl_cons, ih _ (fun c hc => hcs c (List.mem_cons_of_mem b hc))]
    exact h1

/-- Inside the claimed channel loop, the buffer on channel `c`'s index class
is what the claimed per-channel pass computes from the buffer as it was when
the loop started. -/
theorem claimedFold_class :
    ∀ (cs : List Nat), cs.Nodup → (∀ c ∈ cs, c < 3) → ∀ c ∈ cs,
      ∀ (st : Vals × (Nat → Bool)) (j : Nat), j % 3 = c % 3 →
      (cs.foldl (fun st c =>
          let r := claimedPrepChannelHalf c st.1
          (r.1, Function.update st.2 c r.2)) st).1 j
        = (claimedPrepChannelHalf c st.1).1 j := by
  intro cs
  induction cs with
  | nil => intro _ _ c hc; exact absurd hc (List.not_mem_nil c)
  | cons b cs ih =>
    intro hnd h3 c hc st j hj
    rw [List.nodup_cons] at hnd
    rw [List.foldl_cons]
    rcases List.mem_cons.mp hc with hcb | hcs
    · subst hcb
      have hunt : ∀ d ∈ cs, j % 3 ≠ d % 3 := fun d hd2 => by
        have hdc : d ≠ c := fun h => hnd.1 (h ▸ hd2)
        have hd3 : d < 3 := h3 d (List.mem_cons_of_mem c hd2)
        have hc3 : c < 3 := h3 c (List.mem_cons_self c cs)
        omega
      rw [claimedFold_vals_untouched cs _ hunt]
    · have hbc : b ≠ c := fun h => hnd.1 (h ▸ hcs)
      have hb3 : b < 3 := h3 b (List.mem_cons_self b cs)
      have hc3 : c < 3 := h3 c (List.mem_cons_of_mem b hcs)
      have hagree : ∀ i, i % 3 = c % 3 →
          (claimedPrepChannelHalf b st.1).1 i = st.1 i :=
        fun i hi => claimedPrepChannelHalf_untouched (by omega) st.1
      have hcongr := claimedPrepChannelHalf_congr (c := c) hagree
      have hvals := ih hnd.2 (fun d hd2 => h3 d (List.mem_cons_of_mem b hd2))
        c hcs ((fun st c =>
          let r := claimedPrepChannelHalf c st.1
          (r.1, Function.update st.2 c r.2)) st b) j hj
      rw [hvals]
      exact hcongr.2 j hj

theorem claimedPrepareValsHalf_eq_fold (ac : Nat) (v : Vals) :
    claimedPrepareValsHalf ac v =
      (if ac = 1 then
        (((List.range ac).foldl (fun st c =>
            let r := claimedPrepChannelHalf c st.1
            (r.1, Function.update st.2 c r.2)) (v, fun _ => false)).1,
         fun _ => ((List.range ac).foldl (fun st c =>
            let r := claimedPrepChannelHalf c st.1
            (r.1, Function.update st.2 c r.2)) (v, fun _ => false)).2 0)
      else (List.range ac).foldl (fun st c =>
            let r := claimedPrepChannelHalf c st.1
            (r.1, Function.update st.2 c r.2)) (v, fun _ => false)) := by
  unfold claimedPrepareValsHalf
  split
  · rfl
  · rfl

/-- On an active channel's index class, the claimed channel loop agrees with
the claimed per-channel pass on the original buffer. -/
theorem claimedPrepareValsHalf_vals_class {ac c : Nat} (hac : ac ≤ 3) (hc : c < ac)
    (v : Vals) : ∀ j, j % 3 = c % 3 →
      (claimedPrepareValsHalf ac v).1 j = (claimedPrepChannelHalf c v).1 j := by
  intro j hj
  have h := claimedFold_class (List.range ac) (List.nodup_range ac)
    (fun d hd2 => by have := List.mem_range.mp hd2; omega)
    c (List.mem_range.mpr hc) (v, fun _ => false) j hj
  rw [claimedPrepareValsHalf_eq_fold]
  split
  · exact h
  · exact h

theorem cexC1_claimed : (claimedPrepareValsHalf 3 cexVals1).1 95233 = F.fin 0 := by
  rw [claimedPrepareValsHalf_vals_class (show (3 : Nat) ≤ 3 by omega)
    (show (1 : Nat) < 3 by omega) cexVals1 95233 (by omega)]
  rw [cexC1_ch1]
  show Function.update cexVals1 (3 * 31744 + 1) (F.fin 0) (3 * 31744 + 1) = F.fin 0
  exact Function.update_same _ _ _

/-- The code's half-domain pass on channel 1 of `cexVals1`: both walks stop
short of the +∞ row (the loop bounds are not channel-adjusted), and every
visited sample is 0, so the buffer is unchanged. -/
theorem cexCodeCh1 : prepChannelHalf 1 cexVals1 = (cexVals1, false) := by
  unfold prepChannelHalf
  dsimp only
  have hz : cexVals1 1 = F.fin 0 := cexVals1_ne (by omega)
  rw [cexC1_inc, hz]
  have hpos : flattenGo false (cexVals1, F.fin 0) (idxSeq (1 + 3) 3 95232)
      = (cexVals1, F.fin 0) :=
    flattenGo_const _ _ _ (fun a ha =>
      cexVals1_ne (by have := mem_idxSeq_le ha; omega))
  rw [hpos]
  dsimp only
  rw [hz]
  have hneg : flattenGo (!false) (cexVals1, F.fin 0) (idxSeq (98304 + 1) 3 193536)
      = (cexVals1, F.fin 0) :=
    flattenGo_const _ _ _ (fun a ha =>
      cexVals1_ne (by have := mem_idxSeq_ge ha; omega))
  rw [hneg]

theorem cexC1_code : (prepareVals true 65536 3 cexVals1).1 95233 = F.fin 1 := by
  rw [prepareVals_vals_class (show (3 : Nat) ≤ 3 by omega)
    (show (1 : Nat) < 3 by omega) cexVals1 95233 (by omega)]
  have hpc : prepChannel true 65536 1 cexVals1 = (cexVals1, false) := cexCodeCh1
  rw [hpc]
  show cexVals1 95233 = F.fin 1
  unfold cexVals1
  rw [if_pos rfl]

/-- C1 counterexample: on `cexVals1`, the flattening as the claim words it
(positive rows walked through the +∞ row 31744 for every active channel)
clamps channel 1's +∞ row to 0 — the channel is flat, detected as
non-increasing, and its +∞ row value 1 violates that direction — but the
code's pass leaves that row holding 1: the positive loop bound `31744*3` is
not channel-adjusted, so channel 1's walk stops at row 31743. -/
theorem C1_counterexample :
    (claimedPrepareValsHalf 3 cexVals1).1 95233 = F.fin 0 ∧
    (prepareVals true 65536 3 cexVals1).1 95233 = F.fin 1 ∧
    (prepareVals true 65536 3 cexVals1).1 95233
      ≠ (claimedPrepareValsHalf 3 cexVals1).1 95233 := by
  refine ⟨cexC1_claimed, cexC1_code, ?_⟩
  rw [cexC1_claimed, cexC1_code]
  decide

/-- C1 (amended): for a half-domain LUT, `prepareArray`'s flattening pass
equals, channel by channel, the amended walk: positive rows 1 … 31744 for
channel 0 but only 1 … 31743 for channels 1 and 2, then negative rows
32768 … 64512 (channel 0) or … 64511 (channels 1, 2) with the opposite
direction, the walks seeded with the value at row 0 (the loop bounds
`31744*3` and `64512*3` are not channel-adjusted in the code); the NaN rows
31745 … 32767 and 64513 … 65535 are untouched for every channel. -/
theorem C1_amended_half_flatten (L : Lut1D) (hhf : L.halfFlags.inputHalf = true)
    (hac : L.nComps ≤ 3) :
    prepareVals true L.length L.nComps L.vals
      = amendedPrepareValsHalf L.nComps L.vals ∧
    ∀ j, (95235 ≤ j ∧ j < 98304) ∨ 193539 ≤ j →
      (prepareArray L).vals j = L.vals j := by
  constructor
  · have hfold : (List.range L.nComps).foldl (prepChannelStep true L.length)
        (L.vals, fun _ => false)
        = (List.range L.nComps).foldl
          (fun st c =>
            let r := amendedPrepChannelHalf c st.1
            (r.1, Function.update st.2 c r.2)) (L.vals, fun _ => false) :=
      foldl_congr_mem _ _ _ _ (fun c hcm st => by
        have hc3 : c < 3 := lt_of_lt_of_le (List.mem_range.mp hcm) hac
        unfold prepChannelStep
        dsimp only
        rw [show prepChannel true L.length c st.1 = amendedPrepChannelHalf c st.1
          from prepChannelHalf_eq_amended hc3 st.1])
    unfold prepareVals amendedPrepareValsHalf
    dsimp only
    rw [hfold]
  · intro j hj
    show (prepareVals L.halfFlags.inputHalf L.length L.nComps L.vals).1 j = L.vals j
    rw [hhf]
    unfold prepareVals
    dsimp only
    have hpres : ((List.range L.nComps).foldl (prepChannelStep true L.length)
        (L.vals, fun _ => false)).1 j = L.vals j :=
      prepFold_vals_pres (List.range L.nComps) (L.vals, fun _ => false)
        (fun c _ w => prepChannelHalf_nanrows hj w)
    split
    · exact hpres
    · exact hpres

/-- A concrete half-domain LUT for the C1 witness. -/
def wLut1 : Lut1D :=
  ⟨65536, 3, fun _ => F.fin 0, LUT_INPUT_HALF_CODE, .default, .none, .forward,
   .fast, .unknown, [], "", true, fun _ => false⟩

/-- C1 witness: the amended statement applied to `wLut1`; the first NaN row's
first sample survives `prepareArray`. -/
theorem C1_amended_half_flatten_witness :
    wLut1.halfFlags.inputHalf = true ∧ wLut1.nComps ≤ 3 ∧
    (prepareArray wLut1).vals 95235 = wLut1.vals 95235 :=
  ⟨rfl, by decide,
   (C1_amended_half_flatten wLut1 rfl (by decide)).2 95235 (by omega)⟩


/-- Running the common tail of `Compose`: the chain gains `B` at its end, and
the result is `A` with three components, the evaluated buffer, the merged
metadata and `B`'s hue adjust. -/
theorem composeTail_run (evalT : EvalT) (A B : Lut1D) (ops : List Op) :
    composeTail evalT A B ops
      = .ok ({ A with nComps := 3, vals := evalT (ops ++ [Op.lut1d B]) A.vals, metadata := Metadata.combine A.metadata B.metadata, hueAdjust := B.hueAdjust }, ops ++ [Op.lut1d B]) := by
  unfold composeTail ComposeVec
  dsimp only
  rw [show (ops ++ [Op.lut1d B]).isEmpty = false from by simp]
  rfl

def wLut4a : Lut1D :=
  ⟨2, 3, fun _ => F.fin 0, LUT_STANDARD, .default, .none, .forward, .fast, .unknown,
   ["a"], "", true, fun _ => false⟩

def wLut4b : Lut1D :=
  ⟨2, 3, fun _ => F.fin 0, LUT_STANDARD, .default, .dw3, .forward, .fast, .unknown,
   ["b"], "", true, fun _ => false⟩

/-- C4: `ComposeVec` rejects an empty chain; whenever `Compose` succeeds the
chain ends with `B` and the result copies `B`'s hue adjust; and when the
domain of `A` is not good (`A` not half-domain, and its length under the
required `min_size` unless the method needs a half domain) and the method is
not RESAMPLE_NO, `A` is replaced by a fresh identity LUT of length 65536
(half-domain iff the method is RESAMPLE_HD) that keeps `A`'s metadata, the
original `A` is at the head of the chain, and the result merges the
metadata and carries `B`'s hue adjust. -/
theorem C4_compose (evalT : EvalT) (A B : Lut1D) (m : ComposeMethod) :
    (∀ X : Lut1D,
      ComposeVec evalT X [] = .error "There is nothing to compose the 1D LUT with") ∧
    (∀ R ops2, Compose evalT A B m = .ok (R, ops2) →
      R.hueAdjust = B.hueAdjust ∧ ∃ pre, ops2 = pre ++ [Op.lut1d B]) ∧
    (¬(A.halfFlags.inputHalf = true ∨
        (65536 ≤ A.length ∧ m ≠ ComposeMethod.resampleHD)) →
      m ≠ ComposeMethod.resampleNo →
      ∃ R, Compose evalT A B m = .ok (R, [Op.lut1d A, Op.lut1d B]) ∧
        R.length = 65536 ∧
        R.halfFlags.inputHalf = (m == ComposeMethod.resampleHD) ∧
        R.metadata = Metadata.combine A.metadata B.metadata ∧
        R.hueAdjust = B.hueAdjust ∧
        R.vals = evalT [Op.lut1d A, Op.lut1d B]
          (fillVals (m == ComposeMethod.resampleHD) 65536)) := by
  refine ⟨fun X => rfl, ?_, ?_⟩
  · intro R ops2 h
    unfold Compose at h
    dsimp only at h
    split at h
    · split at h
      · exact Except.noConfusion h
      · rw [composeTail_run] at h
        rw [Except.ok.injEq, Prod.mk.injEq] at h
        refine ⟨?_, [Op.lut1d A], h.2.symm⟩
        rw [← h.1]
    · rw [composeTail_run] at h
      rw [Except.ok.injEq, Prod.mk.injEq] at h
      refine ⟨?_, [], h.2.symm⟩
      rw [← h.1]
  · intro hng hno
    have hih : A.halfFlags.inputHalf = false := by
      cases hfl : A.halfFlags.inputHalf
      · rfl
      · exact absurd (Or.inl hfl) hng
    cases m with
    | resampleNo => exact absurd rfl hno
    | resampleBig =>
      have hlen : decide (A.length ≥ 65536) = false :=
        decide_eq_false (fun hl => hng (Or.inr ⟨hl, by decide⟩))
      unfold Compose
      dsimp only
      split
      · exact ⟨_, composeTail_run evalT _ B [Op.lut1d A], rfl, rfl, rfl, rfl, rfl⟩
      · rename_i hcond
        exfalso
        apply hcond
        rw [hih, hlen]
        rfl
    | resampleHD =>
      unfold Compose
      dsimp only
      split
      · exact ⟨_, composeTail_run evalT _ B [Op.lut1d A], rfl, rfl, rfl, rfl, rfl⟩
      · rename_i hcond
        exfalso
        apply hcond
        rw [hih]
        simp

/-- C4 witness: with an identity evaluator, a small standard-domain `A` and
RESAMPLE_BIG, the replacement branch fires and produces the stated result. -/
theorem C4_compose_witness :
    ¬(wLut4a.halfFlags.inputHalf = true ∨
        (65536 ≤ wLut4a.length ∧ ComposeMethod.resampleBig ≠ ComposeMethod.resampleHD)) ∧
    ComposeMethod.resampleBig ≠ ComposeMethod.resampleNo ∧
    ∃ R, Compose (fun _ v => v) wLut4a wLut4b ComposeMethod.resampleBig
        = .ok (R, [Op.lut1d wLut4a, Op.lut1d wLut4b]) ∧
      R.length = 65536 ∧
      R.halfFlags.inputHalf = (ComposeMethod.resampleBig == ComposeMethod.resampleHD) ∧
      R.metadata = Metadata.combine wLut4a.metadata wLut4b.metadata ∧
      R.hueAdjust = wLut4b.hueAdjust ∧
      R.vals = (fun _ v => v : EvalT) [Op.lut1d wLut4a, Op.lut1d wLut4b]
        (fillVals (ComposeMethod.resampleBig == ComposeMethod.resampleHD) 65536) :=
  ⟨by decide, by decide,
   (C4_compose (fun _ v => v) wLut4a wLut4b ComposeMethod.resampleBig).2.2
     (by decide) (by decide)⟩

/-- The lookup domain built for a float incoming depth: a half-domain
identity LUT of length 65536. -/
def halfDomain65536 : Lut1D :=
  ⟨65536, 3, fillVals true 65536, LUT_INPUT_HALF_CODE, .default, .none, .forward,
   .fast, .unknown, [], "", true, fun _ => false⟩

/-- C5: `MakeFastLut1DFromInverse` rejects a forward LUT; on an inverse LUT
with extended range it picks the F16 depth, builds the half-domain lookup
domain of length 65536, and returns the RESAMPLE_NO composition of that
domain with the source observed at EXACT inversion quality — a forward
half-domain LUT of length 65536. -/
theorem C5_fast_inverse (evalT : EvalT) (lut : Lut1D) (forGPU : Bool) :
    (lut.direction = .forward →
      MakeFastLut1DFromInverse evalT lut forGPU
        = .error "MakeFastLut1DFromInverse expects an inverse 1D LUT") ∧
    (lut.direction = .inverse → hasExtendedRange lut = true →
      ∃ R, MakeFastLut1DFromInverse evalT lut forGPU = .ok R ∧
        R.direction = .forward ∧
        R.halfFlags.inputHalf = true ∧
        R.length = 65536 ∧
        MakeLookupDomain .f16 = .ok halfDomain65536 ∧
        Compose evalT halfDomain65536 { lut with invQuality := .exact }
            ComposeMethod.resampleNo
          = .ok (R, [Op.lut1d { lut with invQuality := .exact }])) := by
  constructor
  · intro hdir
    unfold MakeFastLut1DFromInverse
    split
    · rfl
    · rename_i hcond
      exfalso
      apply hcond
      rw [hdir]
      decide
  · intro hdir hext
    have hcomp : Compose evalT halfDomain65536 { lut with invQuality := .exact }
        ComposeMethod.resampleNo
        = .ok ({ halfDomain65536 with nComps := 3, vals := evalT [Op.lut1d { lut with invQuality := .exact }] halfDomain65536.vals, metadata := Metadata.combine halfDomain65536.metadata ({ lut with invQuality := .exact } : Lut1D).metadata, hueAdjust := ({ lut with invQuality := .exact } : Lut1D).hueAdjust }, [Op.lut1d { lut with invQuality := .exact }]) := by
      unfold Compose
      dsimp only
      split
      · rename_i hcond
        exact absurd hcond (by decide)
      · exact composeTail_run evalT halfDomain65536 _ []
    have hrun : MakeFastLut1DFromInverse evalT lut forGPU
        = .ok ({ halfDomain65536 with nComps := 3, vals := evalT [Op.lut1d { lut with invQuality := .exact }] halfDomain65536.vals, metadata := Metadata.combine halfDomain65536.metadata ({ lut with invQuality := .exact } : Lut1D).metadata, hueAdjust := ({ lut with invQuality := .exact } : Lut1D).hueAdjust }) := by
      unfold MakeFastLut1DFromInverse
      split
      · rename_i hcond
        exact absurd hdir hcond
      · rfl
    exact ⟨_, hrun, rfl, rfl, rfl, rfl, hcomp⟩

def wLut5 : Lut1D :=
  ⟨2, 3, fun _ => F.fin 2, LUT_STANDARD, .default, .none, .inverse, .fast, .unknown,
   [], "", true, fun _ => false⟩

/-- C5 witness: a concrete inverse LUT holding 2 everywhere (extended
range). -/
theorem C5_fast_inverse_witness :
    wLut5.direction = .inverse ∧ hasExtendedRange wLut5 = true ∧
    ∃ R, MakeFastLut1DFromInverse (fun _ v => v) wLut5 false = .ok R ∧
      R.direction = .forward ∧
      R.halfFlags.inputHalf = true ∧
      R.length = 65536 ∧
      MakeLookupDomain .f16 = .ok halfDomain65536 ∧
      Compose (fun _ v => v) halfDomain65536 { wLut5 with invQuality := .exact }
          ComposeMethod.resampleNo
        = .ok (R, [Op.lut1d { wLut5 with invQuality := .exact }]) :=
  ⟨rfl,
   by
     apply hasExtendedRange_of_witness (j := 0)
     · norm_num [numValues, wLut5]
     · norm_num [wLut5, extRangeBad],
   (C5_fast_inverse (fun _ v => v) wLut5 false).2 rfl
     (by
       apply hasExtendedRange_of_witness (j := 0)
       · norm_num [numValues, wLut5]
       · norm_num [wLut5, extRangeBad])⟩

end OCIO
